import Mathlib

/-!
# Verification of the Audio_Stego LSB steganography core

Shallow embedding of `backend/app/app.py` (the steganography codec, the
payload framing and the orchestration of the `/embed` and `/extract`
endpoints), together with a model of the cryptographic layer
(PBKDF2 key derivation and the Fernet authenticated-encryption token)
taken from the specification, since the `cryptography` library is external
to the repository.

Byte strings are modelled as `List Nat` with every element `< 256`;
Unicode strings as `List Nat` of code points.  Python exceptions become an
explicit error type: `HTTPException(status, detail)` is `.http status
detail`; `ValueError` is `.valueErr`; `UnicodeDecodeError` (a subclass of
`ValueError` in Python) is `.unicodeErr`; `cryptography`'s `InvalidToken`
is `.invalidToken`; `struct.error` is `.structErr`.

The spec's error kinds map onto concrete errors as follows:
* InvalidInput (embed)  = `.http 400 "Message is required"`
* CapacityError (embed) = `.http 400 "Audio too small for payload"`
* CapacityError (extract minimum length) = `.http 400 "Audio too short"`
* CorruptionError       = `.http 400 "Corrupted or incomplete data"`
* FormatError           = `.http 400 "No hidden payload found"`
* AuthenticationError   = `.http 400 "Invalid passcode or payload"`
-/

/-- Python exception classes that the modelled code can raise. -/
inductive AppErr : Type
  /-- `fastapi.HTTPException(status_code, detail)` -/
  | http : Nat → String → AppErr
  /-- `ValueError(msg)` -/
  | valueErr : String → AppErr
  /-- `UnicodeDecodeError`; in Python this is a subclass of `ValueError`. -/
  | unicodeErr : AppErr
  /-- `cryptography.fernet.InvalidToken` -/
  | invalidToken : AppErr
  /-- `struct.error`, raised by `struct.pack(">I", n)` when `n ≥ 2^32`. -/
  | structErr : AppErr
deriving DecidableEq, Repr

/-- The exceptions caught by `except (InvalidToken, ValueError)` in the
`extract` endpoint: `InvalidToken`, `ValueError` and every subclass of
`ValueError` — in particular `UnicodeDecodeError`. -/
def caughtByExtract : AppErr → Bool
  | AppErr.invalidToken => true
  | AppErr.valueErr _ => true
  | AppErr.unicodeErr => true
  | _ => false

/-- `MAGIC = b"STEG"` (app.py line 27). -/
def MAGIC : List Nat := [83, 84, 69, 71]

/-- `SALT_LEN = 16` (app.py line 28). -/
def SALT_LEN : Nat := 16

/-- `PBKDF2_ITERS = 390_000` (app.py line 29). -/
def PBKDF2_ITERS : Nat := 390000

/-- All elements of the list are bytes. -/
def allBytes (l : List Nat) : Prop := ∀ b ∈ l, b < 256

instance (l : List Nat) : Decidable (allBytes l) := by
  unfold allBytes; infer_instance

/-- The eight bits of one byte, most significant first:
`[(byte >> i) & 1 for i in range(7, -1, -1)]` (app.py lines 48-49). -/
def byteBits (b : Nat) : List Nat :=
  [(b >>> 7) &&& 1, (b >>> 6) &&& 1, (b >>> 5) &&& 1, (b >>> 4) &&& 1,
   (b >>> 3) &&& 1, (b >>> 2) &&& 1, (b >>> 1) &&& 1, (b >>> 0) &&& 1]

/-- `_bytes_to_bits` (app.py lines 45-50): MSB-first bit expansion. -/
def bytesToBits : List Nat → List Nat
  | [] => []
  | b :: bs => byteBits b ++ bytesToBits bs

/-- One step of the inner loop of `_bits_to_bytes`:
`byte = (byte << 1) | b` (app.py line 60). -/
def shiftInBit (acc b : Nat) : Nat := (acc <<< 1) ||| b

/-- The byte-assembly loop of `_bits_to_bytes` (app.py lines 57-61),
consuming eight bits at a time.  Under the guard of `_bits_to_bytes` the
catch-all case is unreachable. -/
def bitsToBytesAux : List Nat → List Nat
  | b0 :: b1 :: b2 :: b3 :: b4 :: b5 :: b6 :: b7 :: rest =>
      shiftInBit (shiftInBit (shiftInBit (shiftInBit (shiftInBit (shiftInBit
        (shiftInBit (shiftInBit 0 b0) b1) b2) b3) b4) b5) b6) b7
        :: bitsToBytesAux rest
  | _ => []

/-- `_bits_to_bytes` (app.py lines 53-62): raises `ValueError` unless the
bit count is a multiple of 8. -/
def bitsToBytes (bits : List Nat) : Except AppErr (List Nat) :=
  if bits.length % 8 ≠ 0 then
    Except.error (AppErr.valueErr "Bit length must be multiple of 8")
  else
    Except.ok (bitsToBytesAux bits)

/-- `struct.pack(">I", n)` for `n < 2^32`: big-endian 4-byte encoding. -/
def pack32 (n : Nat) : List Nat :=
  [n / 2 ^ 24 % 256, n / 2 ^ 16 % 256, n / 2 ^ 8 % 256, n % 256]

/-- `struct.unpack(">I", bs)[0]` on a 4-byte string. -/
def unpack32 : List Nat → Nat
  | [b0, b1, b2, b3] => ((b0 * 256 + b1) * 256 + b2) * 256 + b3
  | _ => 0

/-- The assignment loop of `_embed_payload` (app.py lines 96-97):
`frame_array[i] = (frame_array[i] & 0xFE) | bit` for each bit in order;
bytes beyond the bits are left unchanged. -/
def embedBits : List Nat → List Nat → List Nat
  | frames, [] => frames
  | [], _ :: _ => []
  | f :: fs, b :: bs => ((f &&& 0xFE) ||| b) :: embedBits fs bs

/-- `_embed_payload` (app.py lines 86-98).  `struct.pack(">I", len(payload))`
raises `struct.error` when `len(payload) ≥ 2^32`; otherwise the 4-byte
big-endian length prefix is prepended, the result converted to bits, the
capacity check performed, and the bits written into the least-significant
bits of the leading frame bytes. -/
def embedPayload (frames payload : List Nat) : Except AppErr (List Nat) :=
  if 2 ^ 32 ≤ payload.length then Except.error AppErr.structErr
  else
    let data := pack32 payload.length ++ payload
    let bits := bytesToBits data
    if bits.length > frames.length then
      Except.error (AppErr.http 400 "Audio too small for payload")
    else
      Except.ok (embedBits frames bits)

/-- `_extract_payload` (app.py lines 101-113).  The exception that
`_bits_to_bytes` could raise propagates, hence the `Except.bind`. -/
def extractPayload (frames : List Nat) : Except AppErr (List Nat) :=
  if frames.length < 32 then Except.error (AppErr.http 400 "Audio too short")
  else
    Except.bind (bitsToBytes ((frames.take 32).map (· &&& 1))) fun lenBytes =>
      let totalBits := unpack32 lenBytes * 8
      if 32 + totalBits > frames.length then
        Except.error (AppErr.http 400 "Corrupted or incomplete data")
      else
        bitsToBytes (((frames.drop 32).take totalBits).map (· &&& 1))

/-- `payload.startswith(MAGIC)` (app.py line 160). -/
def listStartsWith (pre l : List Nat) : Prop := l.take pre.length = pre

instance (pre l : List Nat) : Decidable (listStartsWith pre l) := by
  unfold listStartsWith; infer_instance

/-- The payload-decomposition step of `extract` (app.py lines 160-164):
reject unless the payload starts with `MAGIC`; otherwise
`salt = payload[4:20]` and `token = payload[20:]`. -/
def unframe (payload : List Nat) : Except AppErr (List Nat × List Nat) :=
  if listStartsWith MAGIC payload then
    Except.ok ((payload.drop 4).take SALT_LEN, payload.drop (4 + SALT_LEN))
  else
    Except.error (AppErr.http 400 "No hidden payload found")

/-! ## Arithmetic bridges for the bit-level operations -/

/-- `(b >>> i) &&& 1` is the `i`-th binary digit. -/
theorem shiftRight_and_one (b i : Nat) : (b >>> i) &&& 1 = b / 2 ^ i % 2 := by
  rw [Nat.and_one_is_mod, Nat.shiftRight_eq_div_pow]

/-- `byteBits` in pure arithmetic form. -/
theorem byteBits_eq (b : Nat) :
    byteBits b = [b / 128 % 2, b / 64 % 2, b / 32 % 2, b / 16 % 2,
                  b / 8 % 2, b / 4 % 2, b / 2 % 2, b % 2] := by
  simp [byteBits, Nat.shiftRight_eq_div_pow]

theorem byteBits_length (b : Nat) : (byteBits b).length = 8 := by
  simp [byteBits]

theorem bytesToBits_length (l : List Nat) :
    (bytesToBits l).length = 8 * l.length := by
  induction l with
  | nil => simp [bytesToBits]
  | cons b bs ih => simp [bytesToBits, ih, byteBits_length]; ring

theorem bytesToBits_append (l1 l2 : List Nat) :
    bytesToBits (l1 ++ l2) = bytesToBits l1 ++ bytesToBits l2 := by
  induction l1 with
  | nil => simp [bytesToBits]
  | cons b bs ih => simp [bytesToBits, ih]

theorem bytesToBits_bits_lt_two (l : List Nat) :
    ∀ b ∈ bytesToBits l, b < 2 := by
  induction l with
  | nil => simp [bytesToBits]
  | cons x xs ih =>
    intro b hb
    simp only [bytesToBits, List.mem_append] at hb
    rcases hb with h | h
    · rw [byteBits_eq] at h
      simp only [List.mem_cons, List.not_mem_nil, or_false] at h
      rcases h with h | h | h | h | h | h | h | h <;> omega
    · exact ih b h

/-- `(acc <<< 1) ||| b = 2 * acc + b` when `b < 2`. -/
theorem shiftInBit_eq (acc b : Nat) (hb : b < 2) :
    shiftInBit acc b = 2 * acc + b := by
  unfold shiftInBit
  rw [Nat.shiftLeft_eq, pow_one]
  apply Nat.eq_of_testBit_eq
  intro i
  cases i with
  | zero =>
    simp only [Nat.testBit_or, Nat.testBit_zero]
    interval_cases b <;> simp [Nat.mul_comm]
    all_goals omega
  | succ j =>
    rw [Nat.testBit_or]
    have hb0 : b.testBit (j + 1) = false := by
      apply Nat.testBit_lt_two_pow
      calc b < 2 := hb
        _ = 2 ^ 1 := (pow_one 2).symm
        _ ≤ 2 ^ (j + 1) := Nat.pow_le_pow_right (by omega) (by omega)
    rw [hb0, Bool.or_false, Nat.testBit_succ, Nat.testBit_succ]
    have h1 : acc * 2 / 2 = acc := by omega
    have h3 : (2 * acc + b) / 2 = acc := by omega
    rw [h1, h3]

/-- Reassembling the 8 bits of a byte gives the byte back. -/
theorem bitsToBytesAux_byteBits (b : Nat) (hb : b < 256) (rest : List Nat) :
    bitsToBytesAux (byteBits b ++ rest) = b :: bitsToBytesAux rest := by
  rw [byteBits_eq]
  show bitsToBytesAux (b / 128 % 2 :: b / 64 % 2 :: b / 32 % 2 :: b / 16 % 2 ::
    b / 8 % 2 :: b / 4 % 2 :: b / 2 % 2 :: b % 2 :: rest) = b :: bitsToBytesAux rest
  rw [bitsToBytesAux]
  congr 1
  rw [shiftInBit_eq, shiftInBit_eq, shiftInBit_eq, shiftInBit_eq,
      shiftInBit_eq, shiftInBit_eq, shiftInBit_eq, shiftInBit_eq] <;> omega

/-- Codec-level inverse: bytes → bits → bytes is the identity. -/
theorem bitsToBytesAux_bytesToBits (l : List Nat) (h : allBytes l) :
    bitsToBytesAux (bytesToBits l) = l := by
  induction l with
  | nil => rfl
  | cons b bs ih =>
    have hb : b < 256 := h b (List.mem_cons_self b bs)
    have hbs : allBytes bs := fun x hx => h x (List.mem_cons_of_mem b hx)
    show bitsToBytesAux (byteBits b ++ bytesToBits bs) = b :: bs
    rw [bitsToBytesAux_byteBits b hb, ih hbs]

theorem bitsToBytes_bytesToBits (l : List Nat) (h : allBytes l) :
    bitsToBytes (bytesToBits l) = Except.ok l := by
  unfold bitsToBytes
  rw [bytesToBits_length]
  simp [Nat.mul_mod_right, bitsToBytesAux_bytesToBits l h]

theorem pack32_allBytes (n : Nat) : allBytes (pack32 n) := by
  intro b hb
  simp only [pack32, List.mem_cons, List.not_mem_nil, or_false] at hb
  rcases hb with h | h | h | h <;> omega

theorem unpack32_pack32 (n : Nat) (h : n < 2 ^ 32) :
    unpack32 (pack32 n) = n := by
  simp only [pack32, unpack32]
  omega

/-! ## Lemmas about the LSB-embedding loop -/

set_option maxRecDepth 8192 in
theorem embed_byte_lsb : ∀ f < 256, ∀ b < 2, ((f &&& 0xFE) ||| b) &&& 1 = b := by
  decide

set_option maxRecDepth 8192 in
theorem embed_byte_hi : ∀ f < 256, ∀ b < 2, ((f &&& 0xFE) ||| b) / 2 = f / 2 := by
  decide

set_option maxRecDepth 8192 in
theorem embed_byte_lt : ∀ f < 256, ∀ b < 2, ((f &&& 0xFE) ||| b) < 256 := by
  decide

theorem embedBits_length (frames bits : List Nat) :
    (embedBits frames bits).length = frames.length := by
  induction frames generalizing bits with
  | nil => cases bits <;> rfl
  | cons f fs ih =>
    cases bits with
    | nil => rfl
    | cons b bs => simp only [embedBits, List.length_cons, ih]

/-- Reading the least-significant bits of the embedded buffer returns the
embedded bits on the used region and the original bits beyond it. -/
theorem embedBits_map_and_one (frames bits : List Nat) (hf : allBytes frames)
    (hb : ∀ x ∈ bits, x < 2) (hlen : bits.length ≤ frames.length) :
    (embedBits frames bits).map (· &&& 1) =
      bits ++ (frames.drop bits.length).map (· &&& 1) := by
  induction frames generalizing bits with
  | nil =>
    cases bits with
    | nil => simp [embedBits]
    | cons b bs => simp at hlen
  | cons f fs ih =>
    cases bits with
    | nil => simp [embedBits]
    | cons b bs =>
      have hf0 : f < 256 := hf f (List.mem_cons_self f fs)
      have hb0 : b < 2 := hb b (List.mem_cons_self b bs)
      have hfs : allBytes fs := fun x hx => hf x (List.mem_cons_of_mem f hx)
      have hbs : ∀ x ∈ bs, x < 2 := fun x hx => hb x (List.mem_cons_of_mem b hx)
      have hlen' : bs.length ≤ fs.length := by
        simp only [List.length_cons] at hlen; omega
      simp only [embedBits, List.map_cons, List.length_cons, List.drop_succ_cons,
        List.cons_append]
      rw [embed_byte_lsb f hf0 b hb0, ih bs hfs hbs hlen']

theorem embedBits_getD_ge (frames bits : List Nat) (i : Nat)
    (h : bits.length ≤ i) :
    (embedBits frames bits).getD i 0 = frames.getD i 0 := by
  induction frames generalizing bits i with
  | nil => cases bits <;> rfl
  | cons f fs ih =>
    cases bits with
    | nil => rfl
    | cons b bs =>
      cases i with
      | zero => simp at h
      | succ j =>
        simp only [embedBits, List.getD_cons_succ]
        exact ih bs j (by simp only [List.length_cons] at h; omega)

theorem embedBits_getD_lt (frames bits : List Nat) (i : Nat)
    (hi : i < bits.length) (hif : i < frames.length) :
    (embedBits frames bits).getD i 0 = ((frames.getD i 0) &&& 0xFE) ||| bits.getD i 0 := by
  induction frames generalizing bits i with
  | nil => simp at hif
  | cons f fs ih =>
    cases bits with
    | nil => simp at hi
    | cons b bs =>
      cases i with
      | zero => rfl
      | succ j =>
        simp only [embedBits, List.getD_cons_succ]
        exact ih bs j (by simp only [List.length_cons] at hi; omega)
          (by simp only [List.length_cons] at hif; omega)

theorem getD_mem_of_lt (l : List Nat) (i : Nat) (h : i < l.length) :
    l.getD i 0 ∈ l := by
  induction l generalizing i with
  | nil => simp at h
  | cons x xs ih =>
    cases i with
    | zero => simp
    | succ j =>
      simp only [List.getD_cons_succ]
      exact List.mem_cons_of_mem _ (ih j (by simpa using h))

/-- Total bit count of the length-prefixed payload. -/
theorem payloadBits_length (payload : List Nat) :
    (bytesToBits (pack32 payload.length ++ payload)).length =
      8 * (4 + payload.length) := by
  rw [bytesToBits_length]
  simp [pack32]
  omega

/-! ## Characterizations of `_embed_payload` and `_extract_payload` -/

/-- `_embed_payload` on payloads whose length fits the 32-bit prefix. -/
theorem embedPayload_eq (frames payload : List Nat)
    (h32 : payload.length < 2 ^ 32) :
    embedPayload frames payload =
      if 8 * (4 + payload.length) > frames.length then
        Except.error (AppErr.http 400 "Audio too small for payload")
      else
        Except.ok (embedBits frames
          (bytesToBits (pack32 payload.length ++ payload))) := by
  simp only [embedPayload]
  rw [if_neg (by omega), payloadBits_length]

/-- `_extract_payload` on buffers of at least 32 bytes. -/
theorem extractPayload_eq (frames : List Nat) (h : 32 ≤ frames.length) :
    extractPayload frames =
      if 32 + unpack32 (bitsToBytesAux ((frames.take 32).map (· &&& 1))) * 8 >
          frames.length then
        Except.error (AppErr.http 400 "Corrupted or incomplete data")
      else
        Except.ok (bitsToBytesAux (((frames.drop 32).take
          (unpack32 (bitsToBytesAux ((frames.take 32).map (· &&& 1))) * 8)).map
            (· &&& 1))) := by
  have hlb : ((frames.take 32).map (· &&& 1)).length = 32 := by
    simp [List.length_take]
    omega
  simp only [extractPayload, bitsToBytes, hlb]
  rw [if_neg (by omega), if_neg (show ¬(32 % 8 ≠ 0) by norm_num)]
  simp only [Except.bind]
  split
  · rfl
  · next hle =>
    have h8 : ¬((((frames.drop 32).take
        (unpack32 (bitsToBytesAux ((frames.take 32).map (· &&& 1))) * 8)).map
          (· &&& 1)).length % 8 ≠ 0) := by
      simp only [List.length_map, List.length_take, List.length_drop]
      omega
    rw [if_neg h8]

/-! ## Claim C2: bit-locality of embedding -/

/-- C2: for every sample buffer and payload accepted by `_embed_payload`,
the output has the same length as the input, every byte at index
`≥ 8*(4+len(payload))` is byte-identical to the input, and every byte at
index `< 8*(4+len(payload))` agrees with the input on all bits above the
least-significant one. -/
theorem embed_bit_locality (frames payload out : List Nat)
    (hbytes : allBytes frames)
    (h : embedPayload frames payload = Except.ok out) :
    out.length = frames.length ∧
    (∀ i, 8 * (4 + payload.length) ≤ i → out.getD i 0 = frames.getD i 0) ∧
    (∀ i, i < 8 * (4 + payload.length) →
      out.getD i 0 / 2 = frames.getD i 0 / 2) := by
  have h32 : payload.length < 2 ^ 32 := by
    by_contra hc
    unfold embedPayload at h
    rw [if_pos (by omega)] at h
    exact Except.noConfusion h
  rw [embedPayload_eq frames payload h32] at h
  by_cases hcap : 8 * (4 + payload.length) > frames.length
  · rw [if_pos hcap] at h
    exact Except.noConfusion h
  · rw [if_neg hcap] at h
    injection h with h'
    have hblen : (bytesToBits (pack32 payload.length ++ payload)).length =
        8 * (4 + payload.length) := payloadBits_length payload
    subst h'
    refine ⟨embedBits_length _ _, ?_, ?_⟩
    · intro i hi
      exact embedBits_getD_ge _ _ i (by omega)
    · intro i hi
      have hif : i < frames.length := by omega
      rw [embedBits_getD_lt _ _ i (by omega) hif]
      exact embed_byte_hi _ (hbytes _ (getD_mem_of_lt frames i hif)) _
        (bytesToBits_bits_lt_two _ _
          (getD_mem_of_lt (bytesToBits (pack32 payload.length ++ payload)) i
            (by omega)))

def w2frames : List Nat := List.replicate 40 3

def w2payload : List Nat := [170]

def w2out : List Nat := (embedPayload w2frames w2payload).toOption.getD []

/-- Witness for C2 at a concrete 40-byte buffer and 1-byte payload. -/
theorem embed_bit_locality_witness :
    allBytes w2frames ∧
    embedPayload w2frames w2payload = Except.ok w2out ∧
    (w2out.length = w2frames.length ∧
      (∀ i, 8 * (4 + w2payload.length) ≤ i → w2out.getD i 0 = w2frames.getD i 0) ∧
      (∀ i, i < 8 * (4 + w2payload.length) →
        w2out.getD i 0 / 2 = w2frames.getD i 0 / 2)) :=
  ⟨by decide, by rfl,
    embed_bit_locality w2frames w2payload w2out (by decide) (by rfl)⟩

/-! ## Claim C5: capacity boundary of embedding -/

/-- C5 (amended with `len(payload) < 2^32`): embedding succeeds exactly
when the total bit count `8*(4+len(payload))` of the length-prefixed
payload is at most `len(samples)` — in particular when it is exactly equal
— and fails with CapacityError exactly when it is strictly greater. -/
theorem embed_capacity_boundary (frames payload : List Nat)
    (h32 : payload.length < 2 ^ 32) :
    (8 * (4 + payload.length) ≤ frames.length →
      embedPayload frames payload =
        Except.ok (embedBits frames
          (bytesToBits (pack32 payload.length ++ payload)))) ∧
    (embedPayload frames payload =
        Except.error (AppErr.http 400 "Audio too small for payload") ↔
      frames.length < 8 * (4 + payload.length)) := by
  rw [embedPayload_eq frames payload h32]
  constructor
  · intro h
    rw [if_neg (by omega)]
  · constructor
    · intro h
      by_contra hc
      rw [if_neg (by omega)] at h
      exact Except.noConfusion h
    · intro h
      rw [if_pos (by omega)]

/-- Counterexample to C5 as stated: for a payload of `2^32` bytes and an
empty sample buffer the bit count exceeds the buffer length, yet the code
raises `struct.error` from `struct.pack(">I", len(payload))` (line 87),
not the CapacityError `HTTPException`. -/
theorem embed_capacity_boundary_cx :
    ([] : List Nat).length < 8 * (4 + (List.replicate (2 ^ 32) (0 : Nat)).length) ∧
    embedPayload [] (List.replicate (2 ^ 32) 0) = Except.error AppErr.structErr ∧
    AppErr.structErr ≠ AppErr.http 400 "Audio too small for payload" := by
  refine ⟨?_, ?_, by decide⟩
  · rw [List.length_replicate]
    norm_num
  · have hp : (2 : Nat) ^ 32 ≤ (List.replicate (2 ^ 32) (0 : Nat)).length := by
      rw [List.length_replicate]
    unfold embedPayload
    rw [if_pos hp]

/-- Witness for C5 at a buffer whose length exactly equals the bit count. -/
theorem embed_capacity_boundary_witness :
    ([7] : List Nat).length < 2 ^ 32 ∧
    (List.replicate 40 0 : List Nat).length = 8 * (4 + ([7] : List Nat).length) ∧
    embedPayload (List.replicate 40 0) [7] =
      Except.ok (embedBits (List.replicate 40 0)
        (bytesToBits (pack32 ([7] : List Nat).length ++ [7]))) :=
  ⟨by decide, by decide,
    (embed_capacity_boundary (List.replicate 40 0) [7] (by decide)).1 (by decide)⟩

/-! ## Claim C4: complete behaviour of `_extract_payload` -/

/-- C4: extraction fails with CapacityError (`"Audio too short"`) when
`len(samples) < 32`; otherwise, with `L` the big-endian 32-bit integer read
from the least-significant bits of the first 32 bytes, it fails with
CorruptionError when `32 + 8·L > len(samples)` and otherwise returns the
`L` bytes decoded from the next `8·L` least-significant bits, with no
further validation. -/
theorem extract_payload_spec (frames : List Nat) :
    (frames.length < 32 →
      extractPayload frames = Except.error (AppErr.http 400 "Audio too short")) ∧
    (32 ≤ frames.length →
      (frames.length <
          32 + 8 * unpack32 (bitsToBytesAux ((frames.take 32).map (· &&& 1))) →
        extractPayload frames =
          Except.error (AppErr.http 400 "Corrupted or incomplete data")) ∧
      (32 + 8 * unpack32 (bitsToBytesAux ((frames.take 32).map (· &&& 1))) ≤
          frames.length →
        extractPayload frames = Except.ok (bitsToBytesAux (((frames.drop 32).take
          (8 * unpack32 (bitsToBytesAux ((frames.take 32).map (· &&& 1))))).map
            (· &&& 1))))) := by
  refine ⟨?_, fun h32 => ⟨?_, ?_⟩⟩
  · intro h
    unfold extractPayload
    rw [if_pos h]
  · intro hlt
    rw [extractPayload_eq frames h32, if_pos (by omega)]
  · intro hle
    rw [extractPayload_eq frames h32, if_neg (by omega),
      Nat.mul_comm (unpack32 (bitsToBytesAux ((frames.take 32).map (· &&& 1)))) 8]

def w4frames : List Nat :=
  List.replicate 31 0 ++ [1, 1, 0, 1, 0, 1, 0, 1, 0]

/-- Witness for C4 at a concrete 40-byte buffer declaring a 1-byte payload. -/
theorem extract_payload_spec_witness :
    32 ≤ w4frames.length ∧
    32 + 8 * unpack32 (bitsToBytesAux ((w4frames.take 32).map (· &&& 1))) ≤
      w4frames.length ∧
    extractPayload w4frames = Except.ok (bitsToBytesAux (((w4frames.drop 32).take
      (8 * unpack32 (bitsToBytesAux ((w4frames.take 32).map (· &&& 1))))).map
        (· &&& 1))) :=
  ⟨by decide, by decide,
    ((extract_payload_spec w4frames).2 (by decide)).2 (by decide)⟩

/-! ## Claim C8: payload unframing -/

/-- C8: unframing fails with FormatError exactly when the extracted payload
does not start with the 4-byte marker; when it does, the salt is
`payload[4:20]` (the 16 bytes immediately following the marker) and the
token is `payload[20:]` (everything after those 16 bytes).  Moreover a
buffer of length at least 32 all of whose least-significant bits are zero
extracts an empty payload, which fails with FormatError. -/
theorem unframe_spec (payload : List Nat) :
    (¬ listStartsWith MAGIC payload →
      unframe payload = Except.error (AppErr.http 400 "No hidden payload found")) ∧
    (listStartsWith MAGIC payload →
      unframe payload = Except.ok ((payload.drop 4).take 16, payload.drop 20)) ∧
    (∀ frames : List Nat, 32 ≤ frames.length → (∀ b ∈ frames, b % 2 = 0) →
      extractPayload frames = Except.ok [] ∧
      Except.bind (extractPayload frames) unframe =
        Except.error (AppErr.http 400 "No hidden payload found")) := by
  refine ⟨?_, ?_, ?_⟩
  · intro h
    unfold unframe
    rw [if_neg h]
  · intro h
    unfold unframe
    rw [if_pos h]
    rfl
  · intro frames h32 hev
    have hzero : (frames.take 32).map (· &&& 1) = List.replicate 32 0 := by
      rw [List.eq_replicate_iff]
      refine ⟨by simp [List.length_take]; omega, ?_⟩
      intro b hb
      obtain ⟨x, hx, rfl⟩ := List.mem_map.1 hb
      have hx2 : x % 2 = 0 := hev x (List.mem_of_mem_take hx)
      rw [Nat.and_one_is_mod]
      exact hx2
    have hext : extractPayload frames = Except.ok [] := by
      rw [extractPayload_eq frames h32, hzero]
      rw [show unpack32 (bitsToBytesAux (List.replicate 32 0)) = 0 by decide]
      rw [if_neg (by omega)]
      simp
      rfl
    refine ⟨hext, ?_⟩
    rw [hext]
    rfl

def w8payload : List Nat := MAGIC ++ List.replicate 16 5 ++ [9]

/-- Witness for C8: a marked payload, an unmarked payload, and an all-zero
buffer. -/
theorem unframe_spec_witness :
    (listStartsWith MAGIC w8payload ∧
      unframe w8payload = Except.ok ((w8payload.drop 4).take 16, w8payload.drop 20)) ∧
    (¬ listStartsWith MAGIC [0] ∧
      unframe [0] = Except.error (AppErr.http 400 "No hidden payload found")) ∧
    (32 ≤ (List.replicate 32 0 : List Nat).length ∧
      extractPayload (List.replicate 32 0) = Except.ok [] ∧
      Except.bind (extractPayload (List.replicate 32 0)) unframe =
        Except.error (AppErr.http 400 "No hidden payload found")) :=
  ⟨⟨by decide, (unframe_spec w8payload).2.1 (by decide)⟩,
   ⟨by decide, (unframe_spec [0]).1 (by decide)⟩,
   ⟨by decide,
    ((unframe_spec []).2.2 (List.replicate 32 0) (by decide) (by decide)).1,
    ((unframe_spec []).2.2 (List.replicate 32 0) (by decide) (by decide)).2⟩⟩

/-! ## Claim C3: codec-level lossless round-trip -/

/-- The codec-level round-trip, as a reusable lemma. -/
theorem codecRoundtripAux (frames payload : List Nat)
    (hfb : allBytes frames) (hpb : allBytes payload)
    (h32 : payload.length < 2 ^ 32)
    (hcap : 8 * (4 + payload.length) ≤ frames.length) :
    ∃ stego, embedPayload frames payload = Except.ok stego ∧
      extractPayload stego = Except.ok payload := by
  have hblen : (bytesToBits (pack32 payload.length ++ payload)).length =
      8 * (4 + payload.length) := payloadBits_length payload
  have hbits2 : ∀ x ∈ bytesToBits (pack32 payload.length ++ payload), x < 2 :=
    bytesToBits_bits_lt_two _
  refine ⟨embedBits frames (bytesToBits (pack32 payload.length ++ payload)),
    ?_, ?_⟩
  · rw [embedPayload_eq frames payload h32, if_neg (by omega)]
  · have hsl : (embedBits frames
        (bytesToBits (pack32 payload.length ++ payload))).length =
        frames.length := embedBits_length _ _
    have hmap : (embedBits frames
        (bytesToBits (pack32 payload.length ++ payload))).map (· &&& 1) =
        bytesToBits (pack32 payload.length ++ payload) ++
          (frames.drop (bytesToBits (pack32 payload.length ++ payload)).length).map
            (· &&& 1) :=
      embedBits_map_and_one frames _ hfb hbits2 (by omega)
    have hlen1 : (bytesToBits (pack32 payload.length)).length = 32 := by
      rw [bytesToBits_length]
      simp [pack32]
    have hlen2 : (bytesToBits payload).length = 8 * payload.length :=
      bytesToBits_length _
    have hLbits : ((embedBits frames
        (bytesToBits (pack32 payload.length ++ payload))).take 32).map (· &&& 1) =
        bytesToBits (pack32 payload.length) := by
      rw [List.map_take, hmap, bytesToBits_append, List.append_assoc]
      exact List.take_left' hlen1
    rw [extractPayload_eq _ (by omega), hLbits,
      bitsToBytesAux_bytesToBits _ (pack32_allBytes _), unpack32_pack32 _ h32]
    rw [if_neg (by omega)]
    have hPbits : (((embedBits frames
        (bytesToBits (pack32 payload.length ++ payload))).drop 32).take
          (payload.length * 8)).map (· &&& 1) = bytesToBits payload := by
      rw [List.map_take, List.map_drop, hmap, bytesToBits_append,
        List.append_assoc, List.drop_left' hlen1]
      exact List.take_left' (by omega)
    rw [hPbits, bitsToBytesAux_bytesToBits payload hpb]

/-- C3 (amended with `len(payload) < 2^32`): for every byte-string payload
and byte-string sample buffer with `len(samples) ≥ 8*(4+len(payload))`,
extraction from the embedded buffer recovers exactly the payload. -/
theorem codec_roundtrip (frames payload : List Nat)
    (hfb : allBytes frames) (hpb : allBytes payload)
    (h32 : payload.length < 2 ^ 32)
    (hcap : 8 * (4 + payload.length) ≤ frames.length) :
    ∃ stego, embedPayload frames payload = Except.ok stego ∧
      extractPayload stego = Except.ok payload :=
  codecRoundtripAux frames payload hfb hpb h32 hcap

/-- Counterexample to C3 as stated: a payload of `2^32` bytes embedded in a
buffer large enough for it.  `struct.pack(">I", len(payload))` (line 87)
raises `struct.error`, so the round-trip equation fails. -/
theorem codec_roundtrip_cx :
    allBytes (List.replicate (8 * (4 + 2 ^ 32)) 0) ∧
    allBytes (List.replicate (2 ^ 32) 7) ∧
    8 * (4 + (List.replicate (2 ^ 32) (7 : Nat)).length) ≤
      (List.replicate (8 * (4 + 2 ^ 32)) (0 : Nat)).length ∧
    Except.bind (embedPayload (List.replicate (8 * (4 + 2 ^ 32)) 0)
        (List.replicate (2 ^ 32) 7)) extractPayload ≠
      Except.ok (List.replicate (2 ^ 32) 7) := by
  refine ⟨?_, ?_, ?_, ?_⟩
  · intro b hb
    rw [List.eq_of_mem_replicate hb]
    omega
  · intro b hb
    rw [List.eq_of_mem_replicate hb]
    omega
  · rw [List.length_replicate, List.length_replicate]
  · have he : embedPayload (List.replicate (8 * (4 + 2 ^ 32)) 0)
        (List.replicate (2 ^ 32) 7) = Except.error AppErr.structErr := by
      have hp : (2 : Nat) ^ 32 ≤ (List.replicate (2 ^ 32) (7 : Nat)).length := by
        rw [List.length_replicate]
      unfold embedPayload
      rw [if_pos hp]
    rw [he]
    intro hcontra
    exact Except.noConfusion hcontra

def w3frames : List Nat := List.replicate 48 255

def w3payload : List Nat := [202, 254]

/-- Witness for C3 (amended) at a concrete 48-byte buffer and 2-byte
payload. -/
theorem codec_roundtrip_witness :
    allBytes w3frames ∧ allBytes w3payload ∧
    w3payload.length < 2 ^ 32 ∧
    8 * (4 + w3payload.length) ≤ w3frames.length ∧
    ∃ stego, embedPayload w3frames w3payload = Except.ok stego ∧
      extractPayload stego = Except.ok w3payload :=
  ⟨by decide, by decide, by decide, by decide,
    codec_roundtrip w3frames w3payload (by decide) (by decide) (by decide)
      (by decide)⟩

/-! ## The cryptographic layer, modelled from the specification

The `cryptography` package (PBKDF2HMAC, Fernet) and the Python string
primitives are external to the repository; the definitions below follow
the specification's description of them (spec sections 3, 4.2, 4.3 and 6).
The SHA-256 compression itself is abstracted as the `CryptoPrim`
parameter; everything structural (CBC chaining, PKCS#7 padding, the token
layout, base64url, PBKDF2 iteration) is explicit. -/

/-- Modelled from the spec: the primitive cipher/PRF functions that the
`cryptography` package supplies — an AES-128 block encryption and
decryption keyed by 16 bytes, and HMAC-SHA256 producing a 32-byte tag. -/
structure CryptoPrim where
  encBlock : List Nat → List Nat → List Nat
  decBlock : List Nat → List Nat → List Nat
  hmacSHA256 : List Nat → List Nat → List Nat

/-- Characters stripped by Python's `str.strip()`: the Unicode whitespace
set used by CPython. -/
def pyWhitespace : List Nat :=
  [9, 10, 11, 12, 13, 28, 29, 30, 31, 32, 133, 160, 5760,
   8192, 8193, 8194, 8195, 8196, 8197, 8198, 8199, 8200, 8201, 8202,
   8232, 8233, 8239, 8287, 12288]

/-- Whether a code point is Python whitespace. -/
def pyIsSpace (c : Nat) : Bool := pyWhitespace.contains c

/-- Python's `message.strip()` on a list of code points. -/
def pyStrip (s : List Nat) : List Nat :=
  ((s.dropWhile pyIsSpace).reverse.dropWhile pyIsSpace).reverse

/-- A Unicode scalar value (encodable by `str.encode("utf-8")`). -/
def validCodepoint (c : Nat) : Prop :=
  c < 0x110000 ∧ ¬(0xD800 ≤ c ∧ c < 0xE000)

instance (c : Nat) : Decidable (validCodepoint c) := by
  unfold validCodepoint; infer_instance

/-- All code points of the string are Unicode scalar values. -/
def validCodepoints (l : List Nat) : Prop := ∀ c ∈ l, validCodepoint c

instance (l : List Nat) : Decidable (validCodepoints l) := by
  unfold validCodepoints; infer_instance

/-- UTF-8 encoding of one scalar value. -/
def utf8EncodeChar (c : Nat) : List Nat :=
  if c < 0x80 then [c]
  else if c < 0x800 then [0xC0 + c / 64, 0x80 + c % 64]
  else if c < 0x10000 then
    [0xE0 + c / 4096, 0x80 + c / 64 % 64, 0x80 + c % 64]
  else
    [0xF0 + c / 262144, 0x80 + c / 4096 % 64, 0x80 + c / 64 % 64,
     0x80 + c % 64]

/-- `message.encode("utf-8")` on a list of scalar values. -/
def utf8Encode : List Nat → List Nat
  | [] => []
  | c :: cs => utf8EncodeChar c ++ utf8Encode cs

/-- A UTF-8 continuation byte. -/
def isCont (b : Nat) : Bool := decide (0x80 ≤ b ∧ b < 0xC0)

/-- One step of strict UTF-8 decoding, as `bytes.decode("utf-8")` performs
it: returns the decoded scalar value and the number of bytes consumed, or
`none` on malformed input (invalid lead byte, missing or invalid
continuation bytes, overlong forms, surrogates, out-of-range values). -/
def utf8DecodeStep (l : List Nat) : Option (Nat × Nat) :=
  match l with
  | [] => none
  | b1 :: r1 =>
    if b1 < 0x80 then some (b1, 1)
    else if 0xC2 ≤ b1 ∧ b1 ≤ 0xDF then
      match r1 with
      | [] => none
      | b2 :: _ =>
        if isCont b2 then some ((b1 - 0xC0) * 64 + (b2 - 0x80), 2) else none
    else if 0xE0 ≤ b1 ∧ b1 ≤ 0xEF then
      match r1 with
      | [] => none
      | b2 :: r2 =>
        match r2 with
        | [] => none
        | b3 :: _ =>
          if isCont b2 ∧ isCont b3 ∧
              0x800 ≤ (b1 - 0xE0) * 4096 + (b2 - 0x80) * 64 + (b3 - 0x80) ∧
              ¬(0xD800 ≤ (b1 - 0xE0) * 4096 + (b2 - 0x80) * 64 + (b3 - 0x80) ∧
                (b1 - 0xE0) * 4096 + (b2 - 0x80) * 64 + (b3 - 0x80) < 0xE000)
          then
            some ((b1 - 0xE0) * 4096 + (b2 - 0x80) * 64 + (b3 - 0x80), 3)
          else none
    else if 0xF0 ≤ b1 ∧ b1 ≤ 0xF4 then
      match r1 with
      | [] => none
      | b2 :: r2 =>
        match r2 with
        | [] => none
        | b3 :: r3 =>
          match r3 with
          | [] => none
          | b4 :: _ =>
            if isCont b2 ∧ isCont b3 ∧ isCont b4 ∧
                0x10000 ≤ (b1 - 0xF0) * 262144 + (b2 - 0x80) * 4096 +
                  (b3 - 0x80) * 64 + (b4 - 0x80) ∧
                (b1 - 0xF0) * 262144 + (b2 - 0x80) * 4096 +
                  (b3 - 0x80) * 64 + (b4 - 0x80) < 0x110000 then
              some ((b1 - 0xF0) * 262144 + (b2 - 0x80) * 4096 +
                (b3 - 0x80) * 64 + (b4 - 0x80), 4)
            else none
    else none

/-- Strict UTF-8 decoding of a whole byte string, as `bytes.decode("utf-8")`:
decodes scalar values in sequence; `none` models `UnicodeDecodeError`. -/
def utf8Decode (l : List Nat) : Option (List Nat) :=
  match l with
  | [] => some []
  | b1 :: rest =>
    match utf8DecodeStep (b1 :: rest) with
    | none => none
    | some cv => (utf8Decode (rest.drop (cv.2 - 1))).map (fun cs => cv.1 :: cs)
termination_by l.length
decreasing_by
  simp [List.length_drop]
  omega

/-- The base64url alphabet character for a sextet. -/
def b64CharOf (s : Nat) : Nat :=
  if s < 26 then 65 + s
  else if s < 52 then 97 + (s - 26)
  else if s < 62 then 48 + (s - 52)
  else if s = 62 then 45
  else 95

/-- The sextet of a base64url alphabet character. -/
def b64SextetOf (c : Nat) : Option Nat :=
  if 65 ≤ c ∧ c ≤ 90 then some (c - 65)
  else if 97 ≤ c ∧ c ≤ 122 then some (26 + (c - 97))
  else if 48 ≤ c ∧ c ≤ 57 then some (52 + (c - 48))
  else if c = 45 then some 62
  else if c = 95 then some 63
  else none

/-- Modelled from the spec: `base64.urlsafe_b64encode` with `=` padding. -/
def b64urlEncode : List Nat → List Nat
  | b1 :: b2 :: b3 :: rest =>
      b64CharOf (b1 / 4) :: b64CharOf (b1 % 4 * 16 + b2 / 16) ::
        b64CharOf (b2 % 16 * 4 + b3 / 64) :: b64CharOf (b3 % 64) ::
          b64urlEncode rest
  | [b1, b2] =>
      [b64CharOf (b1 / 4), b64CharOf (b1 % 4 * 16 + b2 / 16),
       b64CharOf (b2 % 16 * 4), 61]
  | [b1] => [b64CharOf (b1 / 4), b64CharOf (b1 % 4 * 16), 61, 61]
  | [] => []

/-- Modelled from the spec: `base64.urlsafe_b64decode`; `none` models a
decoding failure. -/
def b64urlDecode : List Nat → Option (List Nat)
  | c1 :: c2 :: c3 :: c4 :: rest =>
      match b64SextetOf c1, b64SextetOf c2 with
      | some s1, some s2 =>
        if c3 = 61 then
          if c4 = 61 ∧ rest = [] then some [s1 * 4 + s2 / 16] else none
        else
          match b64SextetOf c3 with
          | some s3 =>
            if c4 = 61 then
              if rest = [] then
                some [s1 * 4 + s2 / 16, s2 % 16 * 16 + s3 / 4]
              else none
            else
              match b64SextetOf c4 with
              | some s4 =>
                (b64urlDecode rest).map
                  (fun bs => (s1 * 4 + s2 / 16) :: (s2 % 16 * 16 + s3 / 4) ::
                    (s3 % 4 * 64 + s4) :: bs)
              | none => none
          | none => none
      | _, _ => none
  | [] => some []
  | _ => none

/-- Pointwise XOR of two byte strings. -/
def xorBytes (a b : List Nat) : List Nat := List.zipWith (fun x y => x ^^^ y) a b

/-- Modelled from the spec: PKCS#7 padding to 16-byte blocks. -/
def pkcs7pad (m : List Nat) : List Nat :=
  m ++ List.replicate (16 - m.length % 16) (16 - m.length % 16)

/-- Modelled from the spec: PKCS#7 unpadding; `none` models the padding
failure reported as AuthenticationError. -/
def pkcs7unpad (m : List Nat) : Option (List Nat) :=
  let p := m.getLast?.getD 0
  if 1 ≤ p ∧ p ≤ 16 ∧ p ≤ m.length ∧ (m.drop (m.length - p)).all (· == p) then
    some (m.take (m.length - p))
  else none

/-- Modelled from the spec: AES-CBC encryption over 16-byte blocks. -/
def cbcEncrypt (enc : List Nat → List Nat → List Nat)
    (key iv pt : List Nat) : List Nat :=
  match pt with
  | [] => []
  | p :: ps =>
    let c := enc key (xorBytes iv ((p :: ps).take 16))
    c ++ cbcEncrypt enc key c ((p :: ps).drop 16)
termination_by pt.length
decreasing_by
  simp [List.length_drop]
  omega

/-- Modelled from the spec: AES-CBC decryption over 16-byte blocks. -/
def cbcDecrypt (dec : List Nat → List Nat → List Nat)
    (key iv ct : List Nat) : List Nat :=
  match ct with
  | [] => []
  | c :: cs =>
    let blk := (c :: cs).take 16
    xorBytes iv (dec key blk) ++ cbcDecrypt dec key blk ((c :: cs).drop 16)
termination_by ct.length
decreasing_by
  simp [List.length_drop]
  omega

/-- `struct.pack(">Q", n)`: big-endian 8-byte timestamp. -/
def pack64 (n : Nat) : List Nat :=
  [n / 2 ^ 56 % 256, n / 2 ^ 48 % 256, n / 2 ^ 40 % 256, n / 2 ^ 32 % 256,
   n / 2 ^ 24 % 256, n / 2 ^ 16 % 256, n / 2 ^ 8 % 256, n % 256]

/-- The iteration of PBKDF2's `U` chain, XOR-accumulating into `acc`. -/
def pbkdf2Go (prf : List Nat → List Nat → List Nat) (pw : List Nat) :
    Nat → List Nat → List Nat → List Nat
  | 0, _, acc => acc
  | n + 1, u, acc =>
    pbkdf2Go prf pw n (prf pw u) (xorBytes acc (prf pw u))

/-- Modelled from the spec: PBKDF2 with HMAC-SHA256 (`hLen = 32`,
`dkLen = 32`, so a single block `T₁ = U₁ ⊕ … ⊕ U_c` with
`U₁ = PRF(pw, salt ‖ INT(1))`). -/
def pbkdf2 (prf : List Nat → List Nat → List Nat) (pw salt : List Nat)
    (c : Nat) : List Nat :=
  (pbkdf2Go prf pw (c - 1) (prf pw (salt ++ [0, 0, 0, 1]))
    (prf pw (salt ++ [0, 0, 0, 1]))).take 32

/-- `derive_key` (app.py lines 32-42); the KDF itself is modelled from the
spec.  The passcode is a list of code points, UTF-8 encoded before
derivation; the empty passcode raises `ValueError("Passcode is required")`
before any cryptographic work. -/
def derive_key (prim : CryptoPrim) (passcode salt : List Nat) :
    Except AppErr (List Nat) :=
  if passcode = [] then Except.error (AppErr.valueErr "Passcode is required")
  else
    Except.ok (b64urlEncode
      (pbkdf2 prim.hmacSHA256 (utf8Encode passcode) salt PBKDF2_ITERS))

/-- Modelled from the spec: `Fernet(key)` validates that the key is
base64url text decoding to exactly 32 bytes, raising `ValueError`
otherwise. -/
def fernetKeyBytes (key : List Nat) : Except AppErr (List Nat) :=
  match b64urlDecode key with
  | none =>
    Except.error (AppErr.valueErr "Fernet key must be 32 url-safe base64-encoded bytes")
  | some raw =>
    if raw.length ≠ 32 then
      Except.error (AppErr.valueErr "Fernet key must be 32 url-safe base64-encoded bytes")
    else Except.ok raw

/-- Modelled from the spec: `Fernet(key).encrypt(pt)` with explicit IV and
timestamp — token = base64url(0x80 ‖ ts ‖ IV ‖ AES-CBC ciphertext ‖
HMAC tag over the preceding fields), signing key = first half,
encryption key = second half of the decoded key. -/
def fernetEncrypt (prim : CryptoPrim) (key iv : List Nat) (ts : Nat)
    (pt : List Nat) : Except AppErr (List Nat) :=
  Except.bind (fernetKeyBytes key) fun raw =>
    let ct := cbcEncrypt prim.encBlock (raw.drop 16) iv (pkcs7pad pt)
    let basic := 0x80 :: (pack64 ts ++ iv ++ ct)
    Except.ok (b64urlEncode (basic ++ prim.hmacSHA256 (raw.take 16) basic))

/-- Modelled from the spec: `Fernet(key).decrypt(token)` — every failure
(base64, length, version byte, HMAC tag, PKCS#7 unpadding) is the single
`InvalidToken` error. -/
def fernetDecrypt (prim : CryptoPrim) (key token : List Nat) :
    Except AppErr (List Nat) :=
  Except.bind (fernetKeyBytes key) fun raw =>
    match b64urlDecode token with
    | none => Except.error AppErr.invalidToken
    | some data =>
      if data.length < 57 then Except.error AppErr.invalidToken
      else if data.getD 0 0 ≠ 0x80 then Except.error AppErr.invalidToken
      else if prim.hmacSHA256 (raw.take 16) (data.take (data.length - 32)) ≠
          data.drop (data.length - 32) then Except.error AppErr.invalidToken
      else
        match pkcs7unpad (cbcDecrypt prim.decBlock (raw.drop 16)
            ((data.drop 9).take 16) ((data.drop 25).take (data.length - 57))) with
        | none => Except.error AppErr.invalidToken
        | some pt => Except.ok pt

/-- The `/embed` endpoint core (app.py lines 121-148), with the
nondeterministic inputs (salt, IV, timestamp) passed explicitly.
Order as in the source: the whitespace-stripped message is checked first,
then the key is derived, the message encrypted, and the framed payload
`MAGIC ‖ salt ‖ token` embedded. -/
def embedOp (prim : CryptoPrim) (frames message passcode salt iv : List Nat)
    (ts : Nat) : Except AppErr (List Nat) :=
  if pyStrip message = [] then Except.error (AppErr.http 400 "Message is required")
  else
    Except.bind (derive_key prim passcode salt) fun key =>
    Except.bind (fernetEncrypt prim key iv ts (utf8Encode message)) fun token =>
    embedPayload frames (MAGIC ++ salt ++ token)

/-- The `/extract` endpoint core (app.py lines 151-173).  The `try` block
around key derivation, decryption and UTF-8 decoding catches
`InvalidToken` and `ValueError` (including `UnicodeDecodeError`) and
reports them as the single 400 "Invalid passcode or payload". -/
def extractOp (prim : CryptoPrim) (frames passcode : List Nat) :
    Except AppErr (List Nat) :=
  Except.bind (extractPayload frames) fun payload =>
  Except.bind (unframe payload) fun st =>
    match (Except.bind (derive_key prim passcode st.1) fun key =>
           Except.bind (fernetDecrypt prim key st.2) fun pt =>
           match utf8Decode pt with
           | none => Except.error AppErr.unicodeErr
           | some msg => Except.ok msg) with
    | Except.ok msg => Except.ok msg
    | Except.error e =>
      if caughtByExtract e then
        Except.error (AppErr.http 400 "Invalid passcode or payload")
      else Except.error e

/-- A fully concrete primitive instance: identity block cipher and a
constant HMAC, used to instantiate the parametric theorems. -/
def trivPrim : CryptoPrim where
  encBlock := fun _ b => b
  decBlock := fun _ b => b
  hmacSHA256 := fun _ _ => List.replicate 32 0

/-- A string all of whose code points are whitespace strips to empty. -/
theorem pyStrip_eq_nil (message : List Nat) (h : ∀ c ∈ message, pyIsSpace c) :
    pyStrip message = [] := by
  unfold pyStrip
  rw [List.dropWhile_eq_nil_iff.mpr h]
  rfl

/-! ## Claim C9: whitespace-only messages are rejected -/

/-- C9: the `/embed` endpoint rejects with InvalidInput
(`"Message is required"`) every message consisting solely of whitespace
code points — the emptiness check is `if not message.strip()` — before any
cryptographic work occurs: the outcome does not depend on the crypto
primitives, the passcode, the salt, the IV or the timestamp. -/
theorem embed_whitespace_rejected (prim : CryptoPrim)
    (frames message passcode salt iv : List Nat) (ts : Nat)
    (h : ∀ c ∈ message, pyIsSpace c) :
    embedOp prim frames message passcode salt iv ts =
      Except.error (AppErr.http 400 "Message is required") := by
  unfold embedOp
  rw [if_pos (pyStrip_eq_nil message h)]

/-- Witness for C9 at the message `" \t\n"`. -/
theorem embed_whitespace_rejected_witness :
    (∀ c ∈ [32, 9, 10], pyIsSpace c) ∧
    embedOp trivPrim (List.replicate 256 0) [32, 9, 10] [115]
        (List.replicate 16 0) (List.replicate 16 0) 0 =
      Except.error (AppErr.http 400 "Message is required") :=
  ⟨by decide,
    embed_whitespace_rejected trivPrim (List.replicate 256 0) [32, 9, 10] [115]
      (List.replicate 16 0) (List.replicate 16 0) 0 (by decide)⟩

/-! ## Claim C7: key-derivation determinism -/

/-- C7: key derivation is deterministic — for every non-empty passcode and
every salt, derivation succeeds and two calls with the identical
`(passcode, salt)` arguments return the identical key bytes. -/
theorem derive_key_deterministic (prim : CryptoPrim) (passcode salt : List Nat)
    (h : passcode ≠ []) :
    ∃ key, derive_key prim passcode salt = Except.ok key ∧
      derive_key prim passcode salt = Except.ok key := by
  refine ⟨b64urlEncode
    (pbkdf2 prim.hmacSHA256 (utf8Encode passcode) salt PBKDF2_ITERS), ?_, ?_⟩ <;>
    (unfold derive_key; rw [if_neg h])

/-- Witness for C7 at a concrete passcode and salt. -/
theorem derive_key_deterministic_witness :
    ([97] : List Nat) ≠ [] ∧
    ∃ key, derive_key trivPrim [97] [1, 2] = Except.ok key ∧
      derive_key trivPrim [97] [1, 2] = Except.ok key :=
  ⟨by decide, derive_key_deterministic trivPrim [97] [1, 2] (by decide)⟩

/-! ## Claim C10: empty passcode at extraction -/

/-- C10: calling the `/extract` endpoint with an empty passcode on a buffer
whose payload is well-framed fails with AuthenticationError
(`"Invalid passcode or payload"`), not InvalidInput: the
`ValueError("Passcode is required")` raised inside `derive_key` is caught
by the `except (InvalidToken, ValueError)` handler. -/
theorem extract_empty_passcode (prim : CryptoPrim) (frames payload : List Nat)
    (h1 : extractPayload frames = Except.ok payload)
    (h2 : listStartsWith MAGIC payload) :
    extractOp prim frames [] =
      Except.error (AppErr.http 400 "Invalid passcode or payload") := by
  unfold extractOp
  rw [h1]
  simp only [Except.bind]
  unfold unframe
  rw [if_pos h2]
  simp [Except.bind, derive_key, caughtByExtract]

def w10payload : List Nat := MAGIC ++ List.replicate 16 0

def w10frames : List Nat :=
  (embedPayload (List.replicate 192 0) w10payload).toOption.getD []

set_option maxRecDepth 100000 in
/-- Witness for C10 at a concrete 192-byte buffer carrying the framed
payload `MAGIC ‖ 16 zero bytes`. -/
theorem extract_empty_passcode_witness :
    extractPayload w10frames = Except.ok w10payload ∧
    listStartsWith MAGIC w10payload ∧
    extractOp trivPrim w10frames [] =
      Except.error (AppErr.http 400 "Invalid passcode or payload") :=
  ⟨by rfl, by decide,
    extract_empty_passcode trivPrim w10frames w10payload (by rfl) (by decide)⟩

/-! ## Lemmas about XOR and PKCS#7 padding -/

theorem xorBytes_length (a b : List Nat) :
    (xorBytes a b).length = min a.length b.length := by
  simp [xorBytes]

theorem xorBytes_cancel (a b : List Nat) (h : a.length = b.length) :
    xorBytes a (xorBytes a b) = b := by
  induction a generalizing b with
  | nil =>
    cases b with
    | nil => rfl
    | cons y ys => simp at h
  | cons x xs ih =>
    cases b with
    | nil => simp at h
    | cons y ys =>
      simp only [xorBytes, List.zipWith_cons_cons]
      rw [Nat.xor_cancel_left]
      congr 1
      exact ih ys (by simp only [List.length_cons] at h; omega)

theorem xorBytes_allBytes (a : List Nat) :
    ∀ b, allBytes a → allBytes b → allBytes (xorBytes a b) := by
  induction a with
  | nil => intro b _ _ x hx; simp [xorBytes] at hx
  | cons x xs ih =>
    intro b ha hb
    cases b with
    | nil => intro y hy; simp [xorBytes] at hy
    | cons y ys =>
      intro z hz
      simp only [xorBytes, List.zipWith_cons_cons, List.mem_cons] at hz
      rcases hz with hz | hz
      · subst hz
        have h256 : (256 : Nat) = 2 ^ 8 := by norm_num
        rw [h256]
        exact Nat.xor_lt_two_pow (h256 ▸ ha x (by simp))
          (h256 ▸ hb y (by simp))
      · exact ih ys (fun u hu => ha u (List.mem_cons_of_mem x hu))
          (fun u hu => hb u (List.mem_cons_of_mem y hu)) z hz

theorem pkcs7pad_length (m : List Nat) :
    (pkcs7pad m).length = m.length + (16 - m.length % 16) := by
  simp [pkcs7pad]

theorem pkcs7pad_mod (m : List Nat) : (pkcs7pad m).length % 16 = 0 := by
  rw [pkcs7pad_length]
  omega

theorem pkcs7pad_allBytes (m : List Nat) (h : allBytes m) :
    allBytes (pkcs7pad m) := by
  intro b hb
  simp only [pkcs7pad, List.mem_append] at hb
  rcases hb with hb | hb
  · exact h b hb
  · rw [List.eq_of_mem_replicate hb]
    omega

theorem pkcs7unpad_pad (m : List Nat) : pkcs7unpad (pkcs7pad m) = some m := by
  obtain ⟨q, hq⟩ : ∃ q, 16 - m.length % 16 = q + 1 :=
    ⟨16 - m.length % 16 - 1, by omega⟩
  have hq16 : q + 1 ≤ 16 := by omega
  have hsplit : pkcs7pad m = (m ++ List.replicate q (q + 1)) ++ [q + 1] := by
    unfold pkcs7pad
    rw [hq, List.replicate_succ', ← List.append_assoc]
  have hlast : (pkcs7pad m).getLast? = some (q + 1) := by
    rw [hsplit]
    exact List.getLast?_concat _
  have hplen : (pkcs7pad m).length = m.length + (q + 1) := by
    rw [pkcs7pad_length, hq]
  have hdrop : (pkcs7pad m).drop ((pkcs7pad m).length - (q + 1)) =
      List.replicate (q + 1) (q + 1) := by
    rw [show (pkcs7pad m).length - (q + 1) = m.length by omega]
    unfold pkcs7pad
    rw [hq, List.drop_left' rfl]
  have htake : (pkcs7pad m).take ((pkcs7pad m).length - (q + 1)) = m := by
    rw [show (pkcs7pad m).length - (q + 1) = m.length by omega]
    unfold pkcs7pad
    exact List.take_left' rfl
  simp only [pkcs7unpad, hlast, Option.getD_some]
  rw [if_pos ?_]
  · rw [htake]
  · refine ⟨by omega, by omega, by omega, ?_⟩
    rw [hdrop, List.all_eq_true]
    intro x hx
    rw [List.eq_of_mem_replicate hx]
    exact beq_self_eq_true _

/-! ## Lemmas about CBC encryption -/

theorem cbcEncrypt_length (enc : List Nat → List Nat → List Nat)
    (key : List Nat) (hl : ∀ b, b.length = 16 → (enc key b).length = 16)
    (iv pt : List Nat) (hiv : iv.length = 16) (hpt : pt.length % 16 = 0) :
    (cbcEncrypt enc key iv pt).length = pt.length := by
  match pt with
  | [] => simp [cbcEncrypt]
  | p :: ps =>
    have h16 : 16 ≤ (p :: ps).length := by
      simp only [List.length_cons]
      simp only [List.length_cons] at hpt
      omega
    have hblk : ((p :: ps).take 16).length = 16 := by
      simp only [List.length_take]
      omega
    have hc : (enc key (xorBytes iv ((p :: ps).take 16))).length = 16 :=
      hl _ (by rw [xorBytes_length, hiv, hblk]; omega)
    rw [cbcEncrypt]
    simp only [List.length_append, hc]
    rw [cbcEncrypt_length enc key hl _ _ hc
      (by simp only [List.length_drop]; omega)]
    simp only [List.length_drop]
    omega
termination_by pt.length
decreasing_by
  simp [List.length_drop]
  omega

theorem cbcEncrypt_allBytes (enc : List Nat → List Nat → List Nat)
    (key : List Nat) (hb : ∀ b, allBytes b → allBytes (enc key b))
    (iv pt : List Nat) (hiv : allBytes iv) (hpt : allBytes pt) :
    allBytes (cbcEncrypt enc key iv pt) := by
  match pt with
  | [] => intro x hx; simp [cbcEncrypt] at hx
  | p :: ps =>
    have hblkB : allBytes ((p :: ps).take 16) :=
      fun x hx => hpt x (List.mem_of_mem_take hx)
    have hcB : allBytes (enc key (xorBytes iv ((p :: ps).take 16))) :=
      hb _ (xorBytes_allBytes iv _ hiv hblkB)
    rw [cbcEncrypt]
    intro x hx
    rcases List.mem_append.1 hx with hx | hx
    · exact hcB x hx
    · exact cbcEncrypt_allBytes enc key hb _ _ hcB
        (fun u hu => hpt u (List.mem_of_mem_drop hu)) x hx
termination_by pt.length
decreasing_by
  simp [List.length_drop]
  omega

theorem cbc_roundtrip (enc dec : List Nat → List Nat → List Nat)
    (key : List Nat)
    (hdec : ∀ b, b.length = 16 → dec key (enc key b) = b)
    (hl : ∀ b, b.length = 16 → (enc key b).length = 16)
    (iv pt : List Nat) (hiv : iv.length = 16) (hpt : pt.length % 16 = 0) :
    cbcDecrypt dec key iv (cbcEncrypt enc key iv pt) = pt := by
  match pt with
  | [] => simp [cbcEncrypt, cbcDecrypt]
  | p :: ps =>
    have h16 : 16 ≤ (p :: ps).length := by
      simp only [List.length_cons]
      simp only [List.length_cons] at hpt
      omega
    have hblk : ((p :: ps).take 16).length = 16 := by
      simp only [List.length_take]
      omega
    have hxb : (xorBytes iv ((p :: ps).take 16)).length = 16 := by
      rw [xorBytes_length, hiv, hblk]
      omega
    have hc : (enc key (xorBytes iv ((p :: ps).take 16))).length = 16 :=
      hl _ hxb
    rw [cbcEncrypt]
    have hcons : ∃ c0 cs, enc key (xorBytes iv ((p :: ps).take 16)) = c0 :: cs := by
      cases hcE : enc key (xorBytes iv ((p :: ps).take 16)) with
      | nil => rw [hcE] at hc; simp at hc
      | cons c0 cs => exact ⟨c0, cs, rfl⟩
    obtain ⟨c0, cs, hcE⟩ := hcons
    rw [hcE]
    rw [show (c0 :: cs) ++ cbcEncrypt enc key (c0 :: cs) ((p :: ps).drop 16) =
      c0 :: (cs ++ cbcEncrypt enc key (c0 :: cs) ((p :: ps).drop 16)) from rfl]
    rw [cbcDecrypt]
    rw [show c0 :: (cs ++ cbcEncrypt enc key (c0 :: cs) ((p :: ps).drop 16)) =
      (c0 :: cs) ++ cbcEncrypt enc key (c0 :: cs) ((p :: ps).drop 16) from rfl]
    have hclen : (c0 :: cs).length = 16 := by rw [← hcE]; exact hc
    rw [List.take_left' hclen, List.drop_left' hclen, ← hcE]
    rw [hdec _ hxb, xorBytes_cancel _ _ (by rw [hiv, hblk])]
    rw [hcE]
    rw [← hcE, cbc_roundtrip enc dec key hdec hl _ _ hc
      (by simp only [List.length_drop]; omega)]
    exact List.take_append_drop 16 (p :: ps)
termination_by pt.length
decreasing_by
  simp [List.length_drop]
  omega

/-! ## Lemmas about base64url -/

set_option maxRecDepth 8192 in
theorem b64SextetOf_b64CharOf : ∀ s < 64, b64SextetOf (b64CharOf s) = some s := by
  decide

set_option maxRecDepth 8192 in
theorem b64CharOf_ne_61 : ∀ s < 64, b64CharOf s ≠ 61 := by
  decide

set_option maxRecDepth 8192 in
theorem b64CharOf_lt : ∀ s < 64, b64CharOf s < 256 := by
  decide

theorem b64urlEncode_length (l : List Nat) :
    (b64urlEncode l).length = 4 * ((l.length + 2) / 3) := by
  match l with
  | [] => rfl
  | [b1] =>
    rw [b64urlEncode]
    norm_num
  | [b1, b2] =>
    rw [b64urlEncode]
    norm_num
  | b1 :: b2 :: b3 :: rest =>
    rw [b64urlEncode]
    simp only [List.length_cons]
    rw [b64urlEncode_length rest]
    omega

theorem b64urlEncode_allBytes (l : List Nat) (h : allBytes l) :
    allBytes (b64urlEncode l) := by
  match l with
  | [] => intro x hx; simp [b64urlEncode] at hx
  | [b1] =>
    have hb1 : b1 < 256 := h b1 (by simp)
    intro x hx
    rw [b64urlEncode] at hx
    simp only [List.mem_cons, List.not_mem_nil, or_false] at hx
    rcases hx with hx | hx | hx | hx <;> subst hx
    · exact b64CharOf_lt _ (by omega)
    · exact b64CharOf_lt _ (by omega)
    · omega
    · omega
  | [b1, b2] =>
    have hb1 : b1 < 256 := h b1 (by simp)
    have hb2 : b2 < 256 := h b2 (by simp)
    intro x hx
    rw [b64urlEncode] at hx
    simp only [List.mem_cons, List.not_mem_nil, or_false] at hx
    rcases hx with hx | hx | hx | hx <;> subst hx
    · exact b64CharOf_lt _ (by omega)
    · exact b64CharOf_lt _ (by omega)
    · exact b64CharOf_lt _ (by omega)
    · omega
  | b1 :: b2 :: b3 :: rest =>
    have hb1 : b1 < 256 := h b1 (by simp)
    have hb2 : b2 < 256 := h b2 (by simp)
    have hb3 : b3 < 256 := h b3 (by simp)
    intro x hx
    rw [b64urlEncode] at hx
    simp only [List.mem_cons] at hx
    rcases hx with hx | hx | hx | hx | hx
    · subst hx; exact b64CharOf_lt _ (by omega)
    · subst hx; exact b64CharOf_lt _ (by omega)
    · subst hx; exact b64CharOf_lt _ (by omega)
    · subst hx; exact b64CharOf_lt _ (by omega)
    · exact b64urlEncode_allBytes rest
        (fun u hu => h u (by simp [hu])) x hx

theorem b64_roundtrip (l : List Nat) (h : allBytes l) :
    b64urlDecode (b64urlEncode l) = some l := by
  match l with
  | [] => rfl
  | [b1] =>
    have hb1 : b1 < 256 := h b1 (by simp)
    have e1 : b64SextetOf (b64CharOf (b1 / 4)) = some (b1 / 4) :=
      b64SextetOf_b64CharOf _ (by omega)
    have e2 : b64SextetOf (b64CharOf (b1 % 4 * 16)) = some (b1 % 4 * 16) :=
      b64SextetOf_b64CharOf _ (by omega)
    rw [b64urlEncode]
    rw [b64urlDecode]
    rw [e1, e2]
    norm_num
    omega
  | [b1, b2] =>
    have hb1 : b1 < 256 := h b1 (by simp)
    have hb2 : b2 < 256 := h b2 (by simp)
    have e1 : b64SextetOf (b64CharOf (b1 / 4)) = some (b1 / 4) :=
      b64SextetOf_b64CharOf _ (by omega)
    have e2 : b64SextetOf (b64CharOf (b1 % 4 * 16 + b2 / 16)) =
        some (b1 % 4 * 16 + b2 / 16) := b64SextetOf_b64CharOf _ (by omega)
    have e3 : b64SextetOf (b64CharOf (b2 % 16 * 4)) = some (b2 % 16 * 4) :=
      b64SextetOf_b64CharOf _ (by omega)
    have n3 : b64CharOf (b2 % 16 * 4) ≠ 61 := b64CharOf_ne_61 _ (by omega)
    rw [b64urlEncode]
    rw [b64urlDecode]
    rw [e1, e2]
    simp only [if_neg n3]
    rw [e3]
    norm_num
    constructor
    · omega
    · omega
  | b1 :: b2 :: b3 :: rest =>
    have hb1 : b1 < 256 := h b1 (by simp)
    have hb2 : b2 < 256 := h b2 (by simp)
    have hb3 : b3 < 256 := h b3 (by simp)
    have e1 : b64SextetOf (b64CharOf (b1 / 4)) = some (b1 / 4) :=
      b64SextetOf_b64CharOf _ (by omega)
    have e2 : b64SextetOf (b64CharOf (b1 % 4 * 16 + b2 / 16)) =
        some (b1 % 4 * 16 + b2 / 16) := b64SextetOf_b64CharOf _ (by omega)
    have e3 : b64SextetOf (b64CharOf (b2 % 16 * 4 + b3 / 64)) =
        some (b2 % 16 * 4 + b3 / 64) := b64SextetOf_b64CharOf _ (by omega)
    have e4 : b64SextetOf (b64CharOf (b3 % 64)) = some (b3 % 64) :=
      b64SextetOf_b64CharOf _ (by omega)
    have n3 : b64CharOf (b2 % 16 * 4 + b3 / 64) ≠ 61 :=
      b64CharOf_ne_61 _ (by omega)
    have n4 : b64CharOf (b3 % 64) ≠ 61 := b64CharOf_ne_61 _ (by omega)
    rw [b64urlEncode]
    simp only [b64urlDecode, e1, e2, e3, e4, if_neg n3, if_neg n4,
      b64_roundtrip rest (fun u hu => h u (by simp [hu])),
      Option.map_some', Option.some.injEq, List.cons.injEq]
    refine ⟨by omega, by omega, by omega, trivial⟩

/-! ## Lemmas about the UTF-8 codec -/

theorem utf8EncodeChar_allBytes (c : Nat) (hv : validCodepoint c) :
    allBytes (utf8EncodeChar c) := by
  obtain ⟨hlt, _⟩ := hv
  intro b hb
  unfold utf8EncodeChar at hb
  split at hb
  · simp only [List.mem_cons, List.not_mem_nil, or_false] at hb
    omega
  · split at hb
    · simp only [List.mem_cons, List.not_mem_nil, or_false] at hb
      rcases hb with hb | hb <;> omega
    · split at hb
      · simp only [List.mem_cons, List.not_mem_nil, or_false] at hb
        rcases hb with hb | hb | hb <;> omega
      · simp only [List.mem_cons, List.not_mem_nil, or_false] at hb
        rcases hb with hb | hb | hb | hb <;> omega

theorem utf8Encode_allBytes (s : List Nat) (hv : validCodepoints s) :
    allBytes (utf8Encode s) := by
  induction s with
  | nil => intro b hb; simp [utf8Encode] at hb
  | cons c cs ih =>
    intro b hb
    rw [show utf8Encode (c :: cs) = utf8EncodeChar c ++ utf8Encode cs from rfl]
      at hb
    rcases List.mem_append.1 hb with hb | hb
    · exact utf8EncodeChar_allBytes c (hv c (by simp)) b hb
    · exact ih (fun u hu => hv u (by simp [hu])) b hb

theorem utf8DecodeStep_encodeChar (c : Nat) (hv : validCodepoint c)
    (rest : List Nat) :
    utf8DecodeStep (utf8EncodeChar c ++ rest) =
      some (c, (utf8EncodeChar c).length) := by
  obtain ⟨hlt, hsur⟩ := hv
  by_cases h1 : c < 0x80
  · rw [utf8EncodeChar, if_pos h1]
    simp only [List.cons_append, List.nil_append, List.length_cons,
      List.length_nil]
    rw [utf8DecodeStep.eq_def]
    simp only [if_pos h1]
  · by_cases h2 : c < 0x800
    · rw [utf8EncodeChar, if_neg h1, if_pos h2]
      simp only [List.cons_append, List.nil_append, List.length_cons,
        List.length_nil]
      rw [utf8DecodeStep.eq_def]
      have hc2 : isCont (0x80 + c % 64) = true := by
        simp only [isCont, decide_eq_true_eq]
        omega
      simp only [if_neg (show ¬(0xC0 + c / 64 < 0x80) by omega),
        if_pos (show 0xC2 ≤ 0xC0 + c / 64 ∧ 0xC0 + c / 64 ≤ 0xDF by omega),
        hc2, if_true]
      rw [show (0xC0 + c / 64 - 0xC0) * 64 + (0x80 + c % 64 - 0x80) = c by omega]
    · by_cases h3 : c < 0x10000
      · rw [utf8EncodeChar, if_neg h1, if_neg h2, if_pos h3]
        simp only [List.cons_append, List.nil_append, List.length_cons,
          List.length_nil]
        rw [utf8DecodeStep.eq_def]
        have hcond : isCont (0x80 + c / 64 % 64) = true ∧
            isCont (0x80 + c % 64) = true ∧
            0x800 ≤ (0xE0 + c / 4096 - 0xE0) * 4096 +
              (0x80 + c / 64 % 64 - 0x80) * 64 + (0x80 + c % 64 - 0x80) ∧
            ¬(0xD800 ≤ (0xE0 + c / 4096 - 0xE0) * 4096 +
                (0x80 + c / 64 % 64 - 0x80) * 64 + (0x80 + c % 64 - 0x80) ∧
              (0xE0 + c / 4096 - 0xE0) * 4096 +
                (0x80 + c / 64 % 64 - 0x80) * 64 + (0x80 + c % 64 - 0x80) <
                  0xE000) := by
          refine ⟨?_, ?_, by omega, by omega⟩
          · simp only [isCont, decide_eq_true_eq]
            omega
          · simp only [isCont, decide_eq_true_eq]
            omega
        simp only [if_neg (show ¬(0xE0 + c / 4096 < 0x80) by omega),
          if_neg (show ¬(0xC2 ≤ 0xE0 + c / 4096 ∧ 0xE0 + c / 4096 ≤ 0xDF) by
            omega),
          if_pos (show 0xE0 ≤ 0xE0 + c / 4096 ∧ 0xE0 + c / 4096 ≤ 0xEF by omega),
          if_pos hcond]
        rw [show (0xE0 + c / 4096 - 0xE0) * 4096 +
          (0x80 + c / 64 % 64 - 0x80) * 64 + (0x80 + c % 64 - 0x80) = c by omega]
      · rw [utf8EncodeChar, if_neg h1, if_neg h2, if_neg h3]
        simp only [List.cons_append, List.nil_append, List.length_cons,
          List.length_nil]
        rw [utf8DecodeStep.eq_def]
        have hcond : isCont (0x80 + c / 4096 % 64) = true ∧
            isCont (0x80 + c / 64 % 64) = true ∧
            isCont (0x80 + c % 64) = true ∧
            0x10000 ≤ (0xF0 + c / 262144 - 0xF0) * 262144 +
              (0x80 + c / 4096 % 64 - 0x80) * 4096 +
              (0x80 + c / 64 % 64 - 0x80) * 64 + (0x80 + c % 64 - 0x80) ∧
            (0xF0 + c / 262144 - 0xF0) * 262144 +
              (0x80 + c / 4096 % 64 - 0x80) * 4096 +
              (0x80 + c / 64 % 64 - 0x80) * 64 + (0x80 + c % 64 - 0x80) <
                0x110000 := by
          refine ⟨?_, ?_, ?_, by omega, by omega⟩
          · simp only [isCont, decide_eq_true_eq]
            omega
          · simp only [isCont, decide_eq_true_eq]
            omega
          · simp only [isCont, decide_eq_true_eq]
            omega
        simp only [if_neg (show ¬(0xF0 + c / 262144 < 0x80) by omega),
          if_neg (show ¬(0xC2 ≤ 0xF0 + c / 262144 ∧ 0xF0 + c / 262144 ≤ 0xDF) by
            omega),
          if_neg (show ¬(0xE0 ≤ 0xF0 + c / 262144 ∧ 0xF0 + c / 262144 ≤ 0xEF) by
            omega),
          if_pos (show 0xF0 ≤ 0xF0 + c / 262144 ∧ 0xF0 + c / 262144 ≤ 0xF4 by
            omega),
          if_pos hcond]
        rw [show (0xF0 + c / 262144 - 0xF0) * 262144 +
          (0x80 + c / 4096 % 64 - 0x80) * 4096 +
          (0x80 + c / 64 % 64 - 0x80) * 64 + (0x80 + c % 64 - 0x80) = c by omega]

theorem utf8EncodeChar_ne_nil (c : Nat) : ∃ b tl, utf8EncodeChar c = b :: tl := by
  unfold utf8EncodeChar
  split
  · exact ⟨_, _, rfl⟩
  · split
    · exact ⟨_, _, rfl⟩
    · split
      · exact ⟨_, _, rfl⟩
      · exact ⟨_, _, rfl⟩

theorem utf8Decode_encodeChar (c : Nat) (hv : validCodepoint c)
    (rest : List Nat) :
    utf8Decode (utf8EncodeChar c ++ rest) =
      (utf8Decode rest).map (fun cs => c :: cs) := by
  obtain ⟨b, tl, henc⟩ := utf8EncodeChar_ne_nil c
  have hstep := utf8DecodeStep_encodeChar c hv rest
  rw [henc] at hstep ⊢
  simp only [List.cons_append] at hstep ⊢
  rw [utf8Decode.eq_def]
  simp only [hstep]
  rw [show (b :: tl).length - 1 = tl.length by simp]
  rw [List.drop_left' rfl]

theorem utf8_roundtrip (s : List Nat) (hv : validCodepoints s) :
    utf8Decode (utf8Encode s) = some s := by
  induction s with
  | nil => simp [utf8Encode, utf8Decode]
  | cons c cs ih =>
    show utf8Decode (utf8EncodeChar c ++ utf8Encode cs) = _
    rw [utf8Decode_encodeChar c (hv c (by simp)),
      ih (fun u hu => hv u (by simp [hu]))]
    rfl

/-! ## Lemmas about PBKDF2 and the Fernet token -/

theorem pbkdf2Go_spec (prf : List Nat → List Nat → List Nat) (pw : List Nat)
    (hl : ∀ m, (prf pw m).length = 32) (hb : ∀ m, allBytes (prf pw m)) :
    ∀ (n : Nat) (u acc : List Nat), acc.length = 32 → allBytes acc →
      (pbkdf2Go prf pw n u acc).length = 32 ∧
        allBytes (pbkdf2Go prf pw n u acc) := by
  intro n
  induction n with
  | zero => intro u acc h1 h2; exact ⟨h1, h2⟩
  | succ m ih =>
    intro u acc h1 h2
    rw [pbkdf2Go]
    exact ih (prf pw u) (xorBytes acc (prf pw u))
      (by rw [xorBytes_length, h1, hl u]; omega)
      (xorBytes_allBytes acc _ h2 (hb u))

theorem pbkdf2_length (prf : List Nat → List Nat → List Nat)
    (pw salt : List Nat) (c : Nat)
    (hl : ∀ m, (prf pw m).length = 32) (hb : ∀ m, allBytes (prf pw m)) :
    (pbkdf2 prf pw salt c).length = 32 ∧ allBytes (pbkdf2 prf pw salt c) := by
  unfold pbkdf2
  obtain ⟨hgl, hgb⟩ := pbkdf2Go_spec prf pw hl hb (c - 1) _ _
    (hl (salt ++ [0, 0, 0, 1])) (hb (salt ++ [0, 0, 0, 1]))
  constructor
  · rw [List.length_take, hgl]
    omega
  · exact fun x hx => hgb x (List.mem_of_mem_take hx)

theorem pack64_allBytes (n : Nat) : allBytes (pack64 n) := by
  intro b hb
  simp only [pack64, List.mem_cons, List.not_mem_nil, or_false] at hb
  rcases hb with h | h | h | h | h | h | h | h <;> omega

theorem pack64_length (n : Nat) : (pack64 n).length = 8 := by
  simp [pack64]

theorem pkcs7pad_length_ge (m : List Nat) : 16 ≤ (pkcs7pad m).length := by
  rw [pkcs7pad_length]
  omega

/-- The Fernet decrypt of a Fernet encrypt under the same well-formed key
recovers the plaintext, and the produced token is base64url text of the
documented length. -/
theorem fernet_roundtrip (prim : CryptoPrim)
    (hdec : ∀ k b, b.length = 16 → prim.decBlock k (prim.encBlock k b) = b)
    (hencLen : ∀ k b, b.length = 16 → (prim.encBlock k b).length = 16)
    (hencBytes : ∀ k b, allBytes b → allBytes (prim.encBlock k b))
    (hhmacLen : ∀ k m, (prim.hmacSHA256 k m).length = 32)
    (hhmacBytes : ∀ k m, allBytes (prim.hmacSHA256 k m))
    (raw iv pt : List Nat) (ts : Nat)
    (hraw : raw.length = 32) (hrawB : allBytes raw)
    (hiv : iv.length = 16) (hivB : allBytes iv) (hptB : allBytes pt) :
    ∃ token,
      fernetEncrypt prim (b64urlEncode raw) iv ts pt = Except.ok token ∧
      fernetDecrypt prim (b64urlEncode raw) token = Except.ok pt ∧
      token.length = 4 * ((57 + (pkcs7pad pt).length + 2) / 3) ∧
      allBytes token := by
  have hkey : fernetKeyBytes (b64urlEncode raw) = Except.ok raw := by
    simp only [fernetKeyBytes, b64_roundtrip raw hrawB]
    rw [if_neg (by omega)]
  have hctLen : (cbcEncrypt prim.encBlock (raw.drop 16) iv
      (pkcs7pad pt)).length = (pkcs7pad pt).length :=
    cbcEncrypt_length _ _ (fun b hb => hencLen _ b hb) _ _ hiv (pkcs7pad_mod pt)
  have hctB : allBytes (cbcEncrypt prim.encBlock (raw.drop 16) iv
      (pkcs7pad pt)) :=
    cbcEncrypt_allBytes _ _ (fun b hb => hencBytes _ b hb) _ _ hivB
      (pkcs7pad_allBytes pt hptB)
  set ct := cbcEncrypt prim.encBlock (raw.drop 16) iv (pkcs7pad pt) with hct
  set basic : List Nat := 0x80 :: (pack64 ts ++ iv ++ ct) with hbasic
  set tag := prim.hmacSHA256 (raw.take 16) basic with htag
  have hbasicLen : basic.length = 25 + ct.length := by
    rw [hbasic]
    simp [pack64_length, hiv]
    omega
  have htagLen : tag.length = 32 := hhmacLen _ _
  have hdataLen : (basic ++ tag).length = 57 + ct.length := by
    simp [hbasicLen, htagLen]
    omega
  have hdataB : allBytes (basic ++ tag) := by
    intro b hb
    rcases List.mem_append.1 hb with hb | hb
    · rw [hbasic] at hb
      rcases List.mem_cons.1 hb with hb | hb
      · omega
      · rcases List.mem_append.1 hb with hb | hb
        · rcases List.mem_append.1 hb with hb | hb
          · exact pack64_allBytes ts b hb
          · exact hivB b hb
        · exact hctB b hb
    · exact hhmacBytes _ _ b hb
  refine ⟨b64urlEncode (basic ++ tag), ?_, ?_, ?_, ?_⟩
  · unfold fernetEncrypt
    rw [hkey]
    simp only [Except.bind]
  · unfold fernetDecrypt
    rw [hkey]
    simp only [Except.bind, b64_roundtrip _ hdataB]
    rw [if_neg (by rw [hdataLen]; omega)]
    rw [if_neg (by rw [hbasic]; simp)]
    have hsplit32 : (basic ++ tag).length - 32 = basic.length := by
      simp [htagLen]
    rw [hsplit32, List.take_left, List.drop_left]
    rw [if_neg (show ¬(prim.hmacSHA256 (raw.take 16) basic ≠ tag) from
      fun hcontra => hcontra htag.symm)]
    have hdrop9 : ((basic ++ tag).drop 9).take 16 = iv := by
      rw [show basic ++ tag = ([(0x80 : Nat)] ++ pack64 ts) ++
        (iv ++ (ct ++ tag)) from by rw [hbasic]; simp]
      rw [List.drop_left' (by simp [pack64_length])]
      exact List.take_left' hiv
    have hdrop25 : ((basic ++ tag).drop 25).take ((basic ++ tag).length - 57) =
        ct := by
      rw [show basic ++ tag = ([(0x80 : Nat)] ++ pack64 ts ++ iv) ++
        (ct ++ tag) from by rw [hbasic]; simp]
      rw [List.drop_left' (by simp [pack64_length, hiv])]
      rw [show (([(0x80 : Nat)] ++ pack64 ts ++ iv) ++ (ct ++ tag)).length - 57 =
        ct.length by simp [pack64_length, hiv, htagLen]; omega]
      exact List.take_left' rfl
    rw [hdrop9, hdrop25, hct]
    rw [cbc_roundtrip prim.encBlock prim.decBlock (raw.drop 16)
      (fun b hb => hdec _ b hb) (fun b hb => hencLen _ b hb) iv (pkcs7pad pt)
      hiv (pkcs7pad_mod pt)]
    simp only [pkcs7unpad_pad]
  · rw [b64urlEncode_length, hdataLen, hctLen]
  · exact b64urlEncode_allBytes _ hdataB

/-- Evaluation of the `/embed` endpoint when derivation and encryption
succeed. -/
theorem embedOpOkAux (prim : CryptoPrim)
    (frames message passcode salt iv : List Nat) (ts : Nat)
    (key token : List Nat)
    (hne : pyStrip message ≠ [])
    (hkey : derive_key prim passcode salt = Except.ok key)
    (htok : fernetEncrypt prim key iv ts (utf8Encode message) =
      Except.ok token) :
    embedOp prim frames message passcode salt iv ts =
      embedPayload frames (MAGIC ++ salt ++ token) := by
  unfold embedOp
  rw [if_neg hne, hkey]
  simp only [Except.bind]
  rw [htok]

/-- Evaluation of the `/extract` endpoint when every stage succeeds. -/
theorem extractOpOkAux (prim : CryptoPrim)
    (frames passcode payload salt token key pt msg : List Nat)
    (h1 : extractPayload frames = Except.ok payload)
    (h2 : listStartsWith MAGIC payload)
    (hsalt : (payload.drop 4).take SALT_LEN = salt)
    (htok : payload.drop (4 + SALT_LEN) = token)
    (h3 : derive_key prim passcode salt = Except.ok key)
    (h4 : fernetDecrypt prim key token = Except.ok pt)
    (h5 : utf8Decode pt = some msg) :
    extractOp prim frames passcode = Except.ok msg := by
  unfold extractOp
  rw [h1]
  simp only [Except.bind]
  unfold unframe
  rw [if_pos h2]
  simp only [Except.bind]
  rw [hsalt, htok, h3]
  simp only [Except.bind]
  rw [h4]
  simp only [Except.bind]
  rw [h5]

/-! ## Claim C1: end-to-end round-trip -/

/-- The byte length of the Fernet token produced for a message: base64url
text of the 57-byte header/tag structure around the PKCS#7-padded UTF-8
plaintext. -/
def tokenLen (message : List Nat) : Nat :=
  4 * ((57 + (pkcs7pad (utf8Encode message)).length + 2) / 3)

/-- C1 (amended: the message must have non-whitespace content, since embed
rejects whitespace-only messages, and the framed payload must fit the
32-bit length prefix): for every message of Unicode scalar values whose
stripped form is non-empty, every non-empty passcode, every 16-byte salt
and IV, every timestamp, and every byte buffer of length at least
`32 + 8*(20 + tokenLength)`, extraction with the same passcode from the
buffer produced by embedding returns the original message. -/
theorem embed_extract_roundtrip (prim : CryptoPrim)
    (hdec : ∀ k b, b.length = 16 → prim.decBlock k (prim.encBlock k b) = b)
    (hencLen : ∀ k b, b.length = 16 → (prim.encBlock k b).length = 16)
    (hencBytes : ∀ k b, allBytes b → allBytes (prim.encBlock k b))
    (hhmacLen : ∀ k m, (prim.hmacSHA256 k m).length = 32)
    (hhmacBytes : ∀ k m, allBytes (prim.hmacSHA256 k m))
    (frames message passcode salt iv : List Nat) (ts : Nat)
    (hfB : allBytes frames)
    (hmsg : validCodepoints message) (hmsgne : pyStrip message ≠ [])
    (hpass : passcode ≠ [])
    (hsalt : salt.length = 16) (hsaltB : allBytes salt)
    (hiv : iv.length = 16) (hivB : allBytes iv)
    (hsize : 20 + tokenLen message < 2 ^ 32)
    (hcap : 32 + 8 * (20 + tokenLen message) ≤ frames.length) :
    ∃ stego, embedOp prim frames message passcode salt iv ts = Except.ok stego ∧
      extractOp prim stego passcode = Except.ok message := by
  obtain ⟨hrawLen, hrawB⟩ := pbkdf2_length prim.hmacSHA256
    (utf8Encode passcode) salt PBKDF2_ITERS (fun m => hhmacLen _ m)
    (fun m => hhmacBytes _ m)
  have hder : derive_key prim passcode salt = Except.ok (b64urlEncode
      (pbkdf2 prim.hmacSHA256 (utf8Encode passcode) salt PBKDF2_ITERS)) := by
    unfold derive_key
    rw [if_neg hpass]
  generalize hK : pbkdf2 prim.hmacSHA256 (utf8Encode passcode) salt
    PBKDF2_ITERS = raw0 at hder hrawLen hrawB
  obtain ⟨token, henc, hdecr, htlen, htB⟩ :=
    fernet_roundtrip prim hdec hencLen hencBytes hhmacLen hhmacBytes
      raw0 iv (utf8Encode message) ts hrawLen hrawB hiv hivB
      (utf8Encode_allBytes message hmsg)
  have htlen' : token.length = tokenLen message := by
    unfold tokenLen
    exact htlen
  have hpayLen : (MAGIC ++ salt ++ token).length = 20 + token.length := by
    simp [MAGIC, hsalt]
    omega
  have hpayB : allBytes (MAGIC ++ salt ++ token) := by
    intro b hb
    rcases List.mem_append.1 hb with hb | hb
    · rcases List.mem_append.1 hb with hb | hb
      · simp only [MAGIC, List.mem_cons, List.not_mem_nil, or_false] at hb
        rcases hb with hb | hb | hb | hb <;> omega
      · exact hsaltB b hb
    · exact htB b hb
  obtain ⟨stego, hemb, hext⟩ := codecRoundtripAux frames (MAGIC ++ salt ++ token)
    hfB hpayB (by rw [hpayLen, htlen']; omega) (by rw [hpayLen, htlen']; omega)
  have hstarts : listStartsWith MAGIC (MAGIC ++ salt ++ token) := by
    unfold listStartsWith
    rw [List.append_assoc]
    exact List.take_left MAGIC (salt ++ token)
  have hsalt' : ((MAGIC ++ salt ++ token).drop 4).take SALT_LEN = salt := by
    rw [List.append_assoc, List.drop_left' (show (MAGIC : List Nat).length = 4
      from rfl)]
    exact List.take_left' (by rw [hsalt]; rfl)
  have htok' : (MAGIC ++ salt ++ token).drop (4 + SALT_LEN) = token := by
    rw [show MAGIC ++ salt ++ token = (MAGIC ++ salt) ++ token from by
      rw [List.append_assoc]]
    exact List.drop_left' (by simp [MAGIC, hsalt, SALT_LEN])
  refine ⟨stego, ?_, ?_⟩
  · rw [embedOpOkAux prim frames message passcode salt iv ts
      (b64urlEncode raw0) token hmsgne hder henc]
    exact hemb
  · exact extractOpOkAux prim stego passcode (MAGIC ++ salt ++ token) salt
      token (b64urlEncode raw0) (utf8Encode message) message hext hstarts
      hsalt' htok' hder hdecr (utf8_roundtrip message hmsg)

/-! ## Claim C1: counterexample and witness -/

set_option maxRecDepth 100000 in
/-- Counterexample to C1 as stated: the single-space message `" "` is a
non-empty UTF-8 message and the buffer is large enough, yet embed rejects
it at the `if not message.strip()` check (app.py line 127), so the
round-trip equation fails. -/
theorem embed_extract_roundtrip_cx :
    validCodepoints [32] ∧ ([32] : List Nat) ≠ [] ∧ ([112] : List Nat) ≠ [] ∧
    32 + 8 * (20 + tokenLen [32]) ≤ (List.replicate 1000 0 : List Nat).length ∧
    embedOp trivPrim (List.replicate 1000 0) [32] [112] (List.replicate 16 0)
      (List.replicate 16 0) 0 =
      Except.error (AppErr.http 400 "Message is required") ∧
    Except.bind (embedOp trivPrim (List.replicate 1000 0) [32] [112]
        (List.replicate 16 0) (List.replicate 16 0) 0)
      (fun stego => extractOp trivPrim stego [112]) ≠ Except.ok [32] := by
  have hemb : embedOp trivPrim (List.replicate 1000 0) [32] [112]
      (List.replicate 16 0) (List.replicate 16 0) 0 =
      Except.error (AppErr.http 400 "Message is required") := by
    unfold embedOp
    rw [if_pos (by decide)]
  refine ⟨by decide, by decide, by decide,
    by rw [List.length_replicate]; decide, hemb, ?_⟩
  rw [hemb]
  simp [Except.bind]

set_option maxRecDepth 100000 in
/-- Witness for C1 (amended) at the message `"HI"`, passcode `"p"`, zero
salt/IV/timestamp, a 1000-byte buffer and the concrete primitive
instance. -/
theorem embed_extract_roundtrip_witness :
    validCodepoints [72, 73] ∧ pyStrip [72, 73] ≠ [] ∧
    ([112] : List Nat) ≠ [] ∧
    20 + tokenLen [72, 73] < 2 ^ 32 ∧
    32 + 8 * (20 + tokenLen [72, 73]) ≤
      (List.replicate 1000 0 : List Nat).length ∧
    ∃ stego, embedOp trivPrim (List.replicate 1000 0) [72, 73] [112]
        (List.replicate 16 0) (List.replicate 16 0) 0 = Except.ok stego ∧
      extractOp trivPrim stego [112] = Except.ok [72, 73] :=
  ⟨by decide, by decide, by decide, by decide,
    by rw [List.length_replicate]; decide,
    embed_extract_roundtrip trivPrim
      (fun _ _ _ => rfl) (fun _ _ h => h) (fun _ _ h => h)
      (fun _ _ => rfl)
      (fun _ _ => show allBytes (List.replicate 32 0) by decide)
      (List.replicate 1000 0) [72, 73] [112] (List.replicate 16 0)
      (List.replicate 16 0) 0
      (by intro b hb; rw [List.eq_of_mem_replicate hb]; omega)
      (by decide) (by decide) (by decide) (by decide) (by decide)
      (by decide) (by decide) (by decide)
      (by rw [List.length_replicate]; decide)⟩

/-! ## Claim C6: invalid UTF-8 plaintext at extraction -/

/-- Evaluation of the `/extract` endpoint when decryption succeeds but the
plaintext is not valid UTF-8: the `UnicodeDecodeError` raised by
`.decode("utf-8")` is a subclass of `ValueError`, so the
`except (InvalidToken, ValueError)` handler catches it and reports 400
"Invalid passcode or payload". -/
theorem extractAuthFailAux (prim : CryptoPrim)
    (frames passcode payload salt token key pt : List Nat)
    (h1 : extractPayload frames = Except.ok payload)
    (h2 : listStartsWith MAGIC payload)
    (hsalt : (payload.drop 4).take SALT_LEN = salt)
    (htok : payload.drop (4 + SALT_LEN) = token)
    (h3 : derive_key prim passcode salt = Except.ok key)
    (h4 : fernetDecrypt prim key token = Except.ok pt)
    (h5 : utf8Decode pt = none) :
    extractOp prim frames passcode =
      Except.error (AppErr.http 400 "Invalid passcode or payload") := by
  unfold extractOp
  rw [h1]
  simp only [Except.bind]
  unfold unframe
  rw [if_pos h2]
  simp only [Except.bind]
  rw [hsalt, htok, h3]
  simp only [Except.bind]
  rw [h4]
  simp only [Except.bind]
  rw [h5]
  rfl

/-- C6 (corrected): when extraction reaches decryption, decryption
succeeds, and the plaintext bytes are not valid UTF-8, the extract
endpoint fails with AuthenticationError (`"Invalid passcode or payload"`),
not FormatError — `UnicodeDecodeError` is a `ValueError` in Python and is
caught by the handler at app.py line 170. -/
theorem extract_invalid_utf8 (prim : CryptoPrim)
    (frames passcode payload salt token key pt : List Nat)
    (h1 : extractPayload frames = Except.ok payload)
    (h2 : listStartsWith MAGIC payload)
    (hsalt : (payload.drop 4).take SALT_LEN = salt)
    (htok : payload.drop (4 + SALT_LEN) = token)
    (h3 : derive_key prim passcode salt = Except.ok key)
    (h4 : fernetDecrypt prim key token = Except.ok pt)
    (h5 : utf8Decode pt = none) :
    extractOp prim frames passcode =
      Except.error (AppErr.http 400 "Invalid passcode or payload") :=
  extractAuthFailAux prim frames passcode payload salt token key pt
    h1 h2 hsalt htok h3 h4 h5

/-- One unfolding step of CBC decryption on a single block. -/
theorem cbcDecrypt_single (dec : List Nat → List Nat → List Nat)
    (key iv : List Nat) (c : Nat) (cs : List Nat)
    (hle : (c :: cs).length ≤ 16) :
    cbcDecrypt dec key iv (c :: cs) = xorBytes iv (dec key (c :: cs)) := by
  rw [cbcDecrypt]
  rw [List.take_of_length_le hle, List.drop_eq_nil_of_le hle]
  rw [show cbcDecrypt dec key (c :: cs) [] = [] from by rw [cbcDecrypt]]
  simp

def w6key : List Nat := b64urlEncode (List.replicate 32 0)

def w6data : List Nat :=
  128 :: (List.replicate 24 0 ++ (255 :: List.replicate 15 15) ++
    List.replicate 32 0)

def w6token : List Nat := b64urlEncode w6data

def w6payload : List Nat := MAGIC ++ List.replicate 16 0 ++ w6token

def w6frames : List Nat :=
  (embedPayload (List.replicate 992 0) w6payload).toOption.getD []

theorem xorBytes_zeros :
    xorBytes (List.replicate 32 0) (List.replicate 32 0) =
      List.replicate 32 0 := by
  decide

theorem pbkdf2Go_zeroConst (pw : List Nat) :
    ∀ (n : Nat) (u : List Nat),
      pbkdf2Go (fun _ _ => List.replicate 32 0) pw n u (List.replicate 32 0) =
        List.replicate 32 0 := by
  intro n
  induction n with
  | zero => intro u; rfl
  | succ m ih =>
    intro u
    rw [pbkdf2Go]
    show pbkdf2Go (fun _ _ => List.replicate 32 0) pw m (List.replicate 32 0)
      (xorBytes (List.replicate 32 0) (List.replicate 32 0)) =
      List.replicate 32 0
    rw [xorBytes_zeros]
    exact ih _

theorem pbkdf2_trivZero (pw salt : List Nat) :
    pbkdf2 trivPrim.hmacSHA256 pw salt PBKDF2_ITERS = List.replicate 32 0 := by
  show (pbkdf2Go (fun _ _ => List.replicate 32 0) pw (PBKDF2_ITERS - 1)
    (List.replicate 32 0) (List.replicate 32 0)).take 32 = List.replicate 32 0
  rw [pbkdf2Go_zeroConst]
  decide

theorem derive_key_trivZero (p salt : List Nat) (hp : p ≠ []) :
    derive_key trivPrim p salt = Except.ok w6key := by
  unfold derive_key
  rw [if_neg hp, pbkdf2_trivZero]
  rfl

theorem fernetDecrypt_w6 : fernetDecrypt trivPrim w6key w6token =
    Except.ok [255] := by
  unfold fernetDecrypt
  have hk : b64urlDecode w6key = some (List.replicate 32 0) := by decide
  rw [show fernetKeyBytes w6key = Except.ok (List.replicate 32 0) from by
    simp only [fernetKeyBytes, hk]
    rw [if_neg (by decide)]]
  simp only [Except.bind]
  have hd : b64urlDecode w6token = some w6data := by decide
  simp only [hd]
  rw [if_neg (by decide)]
  rw [if_neg (by decide)]
  rw [if_neg (by decide)]
  rw [show (w6data.drop 9).take 16 = List.replicate 16 0 from by decide]
  rw [show (w6data.drop 25).take (w6data.length - 57) =
    255 :: List.replicate 15 15 from by decide]
  rw [cbcDecrypt_single trivPrim.decBlock (List.drop 16 (List.replicate 32 0))
    (List.replicate 16 0) 255 (List.replicate 15 15) (by decide)]
  rw [show xorBytes (List.replicate 16 0) (trivPrim.decBlock
    (List.drop 16 (List.replicate 32 0)) (255 :: List.replicate 15 15)) =
    255 :: List.replicate 15 15 from by decide]
  rw [show pkcs7unpad (255 :: List.replicate 15 15) = some [255] from by decide]

set_option maxRecDepth 20000 in
/-- Counterexample to C6 as stated: a concrete buffer whose well-framed
token decrypts successfully to the single byte `0xFF` — not valid UTF-8 —
makes extraction fail with AuthenticationError
(`"Invalid passcode or payload"`), which is a different error from
FormatError (`"No hidden payload found"`). -/
theorem extract_invalid_utf8_cx :
    fernetDecrypt trivPrim w6key (w6payload.drop (4 + SALT_LEN)) =
      Except.ok [255] ∧
    utf8Decode [255] = none ∧
    extractOp trivPrim w6frames [112] =
      Except.error (AppErr.http 400 "Invalid passcode or payload") ∧
    AppErr.http 400 "Invalid passcode or payload" ≠
      AppErr.http 400 "No hidden payload found" := by
  have hdrop : w6payload.drop (4 + SALT_LEN) = w6token := by decide
  refine ⟨by rw [hdrop]; exact fernetDecrypt_w6, ?_, ?_, by decide⟩
  · rw [utf8Decode.eq_def]
    rfl
  · exact extractAuthFailAux trivPrim w6frames [112] w6payload
      (List.replicate 16 0) w6token w6key [255]
      (by rfl) (by decide) (by decide) hdrop
      (derive_key_trivZero [112] (List.replicate 16 0) (by decide))
      fernetDecrypt_w6 (by rw [utf8Decode.eq_def]; rfl)

set_option maxRecDepth 20000 in
/-- Witness for C6 (corrected) at the same concrete buffer. -/
theorem extract_invalid_utf8_witness :
    extractPayload w6frames = Except.ok w6payload ∧
    listStartsWith MAGIC w6payload ∧
    utf8Decode [255] = none ∧
    extractOp trivPrim w6frames [112] =
      Except.error (AppErr.http 400 "Invalid passcode or payload") :=
  ⟨by rfl, by decide, by rw [utf8Decode.eq_def]; rfl,
    extract_invalid_utf8 trivPrim w6frames [112] w6payload
      (List.replicate 16 0) w6token w6key [255]
      (by rfl) (by decide) (by decide) (by decide)
      (derive_key_trivZero [112] (List.replicate 16 0) (by decide))
      fernetDecrypt_w6 (by rw [utf8Decode.eq_def]; rfl)⟩
